import Mathlib

/-!
Shallow embedding of the onepic layout engine and adaptive export pipeline
(src/layouts.ts and src/App.tsx), with theorems about the layout and export
algorithms.  JavaScript numbers are modelled as exact rationals; `Math.floor`,
`Math.round`, `Math.min`/`Math.max` and `Math.sqrt`-under-floor are modelled
explicitly.
-/

namespace OnePic

/-- JavaScript `Math.round`: round half away from zero; for the nonnegative
quantities used here this is `⌊q + 1/2⌋`. -/
def jsRound (q : ℚ) : ℤ := ⌊q + 1/2⌋

/-- `BarePhoto` from src/layouts.ts: id plus pixel dimensions. -/
structure BarePhoto where
  id : String
  width : ℚ
  height : ℚ
deriving Repr, DecidableEq

/-- `LayoutItem` from src/layouts.ts. -/
structure LayoutItem where
  id : String
  x : ℚ
  y : ℚ
  width : ℚ
  height : ℚ
deriving Repr, DecidableEq

/-- `LayoutResult` from src/layouts.ts. -/
structure LayoutResult where
  width : ℚ
  height : ℚ
  items : List LayoutItem
deriving Repr, DecidableEq

/-- `MasonryOptions` from src/layouts.ts. -/
structure MasonryOptions where
  columns : ℚ
  gutter : ℚ
  width : ℚ
deriving Repr, DecidableEq

/-- `JustifiedOptions` from src/layouts.ts. -/
structure JustifiedOptions where
  rowHeight : ℚ
  gutter : ℚ
  width : ℚ
deriving Repr, DecidableEq

/-- The `clamp` helper of src/layouts.ts:
`Math.min(Math.max(value, min), max)`. -/
def clampQ (value lo hi : ℚ) : ℚ := min (max value lo) hi

/-- JavaScript `Math.min(...l)` for a spread of a nonempty list `a :: l`
is `l.foldl min a`; on `[]` (never reached here) we return 0. -/
def listMin : List ℚ → ℚ
  | [] => 0
  | a :: l => l.foldl min a

/-- JavaScript `Math.max(...l)` analogously. -/
def listMax : List ℚ → ℚ
  | [] => 0
  | a :: l => l.foldl max a

/-- JavaScript `Array.prototype.indexOf` for an element that is present:
index of the first occurrence (0 on the empty list, never reached). -/
def idxOfQ (x : ℚ) : List ℚ → ℕ
  | [] => 0
  | a :: l => if a = x then 0 else idxOfQ x l + 1

/-- `columnHeights.indexOf(Math.min(...columnHeights))` from
`computeMasonryLayout`: the lowest-indexed column of minimal height. -/
def minIdx (l : List ℚ) : ℕ := idxOfQ (listMin l) l

/-- State threaded through the `photos.forEach` loop of
`computeMasonryLayout`: the per-column running heights and the items
accumulated so far. -/
structure MasonryState where
  heights : List ℚ
  items : List LayoutItem
deriving Repr, DecidableEq

/-- One iteration of the `photos.forEach` loop of `computeMasonryLayout`. -/
def masonryStep (columnWidth gutter : ℚ) (st : MasonryState) (photo : BarePhoto) :
    MasonryState :=
  let targetColumn := minIdx st.heights
  let height := photo.height / photo.width * columnWidth
  let x := (targetColumn : ℚ) * (columnWidth + gutter)
  let y := st.heights.getD targetColumn 0
  { heights := st.heights.set targetColumn (y + (height + gutter))
    items := st.items ++ [⟨photo.id, x, y, columnWidth, height⟩] }

/-- The clamped column count `Math.max(1, Math.floor(options.columns))`. -/
def masonryColumns (options : MasonryOptions) : ℕ := max 1 ⌊options.columns⌋.toNat

/-- The clamped gutter `Math.max(0, options.gutter)`. -/
def masonryGutter (options : MasonryOptions) : ℚ := max 0 options.gutter

/-- The column content width
`(options.width - gutter * (columns - 1)) / columns`. -/
def masonryColumnWidth (options : MasonryOptions) : ℚ :=
  (options.width - masonryGutter options * ((masonryColumns options : ℚ) - 1)) /
    (masonryColumns options : ℚ)

/-- `computeMasonryLayout` from src/layouts.ts. -/
def computeMasonryLayout (photos : List BarePhoto) (options : MasonryOptions) :
    LayoutResult :=
  let gutter := masonryGutter options
  let columnWidth := masonryColumnWidth options
  let final := photos.foldl (masonryStep columnWidth gutter)
    ⟨List.replicate (masonryColumns options) 0, []⟩
  { width := options.width
    height := max 0 (listMax final.heights - gutter)
    items := final.items }

/-- One row flushed by `flushRow` in `computeJustifiedLayout`: the placed
items, the resolved row height, and the `isLastRow` flag it was flushed
with. -/
structure JustRow where
  items : List LayoutItem
  height : ℚ
  isLast : Bool
deriving Repr, DecidableEq

/-- The `currentRow.map` body of `flushRow`: place the row's photos
left-to-right at height `rowHeight`, advancing `cursorX` by
`width + gutter` except after the last photo. -/
def placeRow (rowHeight cursorY gutter : ℚ) : List BarePhoto → ℚ → List LayoutItem
  | [], _ => []
  | photo :: rest, cursorX =>
    let width := rowHeight * (photo.width / photo.height)
    ⟨photo.id, cursorX, cursorY, width, rowHeight⟩ ::
      placeRow rowHeight cursorY gutter rest
        (cursorX + width + (if rest.isEmpty then 0 else gutter))

/-- The resolved height computed by `flushRow` for a row of `count` photos
with aspect-ratio sum `aspectSum`: `min(rowHeight, idealHeight)` for the
last row, else `clamp(idealHeight, 0.75·rowHeight, 1.25·rowHeight)`. -/
def flushRowHeight (rowHeight targetWidth gutter : ℚ) (count : ℕ)
    (aspectSum : ℚ) (isLastRow : Bool) : ℚ :=
  let minHeight := rowHeight * 0.75
  let maxHeight := rowHeight * 1.25
  let availableWidth := targetWidth - gutter * ((count : ℚ) - 1)
  let idealHeight := availableWidth / aspectSum
  if isLastRow then min rowHeight idealHeight
  else clampQ idealHeight minHeight maxHeight

/-- The `photos.forEach` loop of `computeJustifiedLayout`, carrying
`currentRow`, `rowAspectSum` and `cursorY`; returns the flushed rows and
the final `cursorY`.  A flush happens when
`virtualRowWidth ≥ targetWidth` or the photo is the last overall. -/
def justifiedAux (rowHeight targetWidth gutter : ℚ) :
    List BarePhoto → List BarePhoto → ℚ → ℚ → List JustRow × ℚ
  | [], _, _, cursorY => ([], cursorY)
  | photo :: rest, currentRow, rowAspectSum, cursorY =>
    let currentRow' := currentRow ++ [photo]
    let rowAspectSum' := rowAspectSum + photo.width / photo.height
    let virtualRowWidth :=
      rowHeight * rowAspectSum' + gutter * ((currentRow'.length : ℚ) - 1)
    let isLastPhoto := rest.isEmpty
    if virtualRowWidth ≥ targetWidth ∨ isLastPhoto = true then
      let h := flushRowHeight rowHeight targetWidth gutter
        currentRow'.length rowAspectSum' isLastPhoto
      let next := justifiedAux rowHeight targetWidth gutter rest [] 0
        (cursorY + h + gutter)
      (⟨placeRow h cursorY gutter currentRow' 0, h, isLastPhoto⟩ :: next.1, next.2)
    else
      justifiedAux rowHeight targetWidth gutter rest currentRow' rowAspectSum' cursorY

/-- The rows flushed by `computeJustifiedLayout` for the given photos and
options, together with each row's resolved height and last-row flag. -/
def justifiedRows (photos : List BarePhoto) (options : JustifiedOptions) :
    List JustRow × ℚ :=
  justifiedAux options.rowHeight options.width (max 0 options.gutter) photos [] 0 0

/-- `computeJustifiedLayout` from src/layouts.ts. -/
def computeJustifiedLayout (photos : List BarePhoto) (options : JustifiedOptions) :
    LayoutResult :=
  let r := justifiedRows photos options
  { width := options.width
    height := max 0 (r.2 - max 0 options.gutter)
    items := (r.1.map JustRow.items).flatten }

/-! ## Adaptive export pipeline (src/App.tsx) -/

/-- Pixel ceiling constants from src/App.tsx. -/
def MAX_CANVAS_PIXELS_IOS : ℚ := 12000000

def MAX_CANVAS_PIXELS_MOBILE : ℚ := 24000000

def MAX_CANVAS_PIXELS_DESKTOP : ℚ := 100000000

/-- `⌊Math.sqrt r * 20⌋` for a nonnegative rational `r`, computed exactly:
for real `x ≥ 0`, `⌊20·√x⌋ = ⌊√(400·x)⌋ = Nat.sqrt ⌊400·x⌋`
(proved below as `floor20Sqrt_eq_floor_real_sqrt`). -/
def floor20Sqrt (r : ℚ) : ℕ := Nat.sqrt (Int.toNat ⌊400 * r⌋)

/-- `getSafeExportScale` from src/App.tsx, with the platform pixel ceiling
(`getMaxCanvasPixels()`) passed explicitly: returns 1 when the requested
area fits the ceiling, else `Math.floor(Math.sqrt(maxPixels/totalPixels)
* 20) / 20`. -/
def getSafeExportScale (maxPixels width height : ℚ) : ℚ :=
  let totalPixels := width * height
  if totalPixels ≤ maxPixels then 1
  else (floor20Sqrt (maxPixels / totalPixels) : ℚ) / 20

/-- The scale ladder of `attemptExport`:
`[safeScale, safeScale * 0.7, safeScale * 0.5, 0.25].filter(s => s > 0.1)`. -/
def exportScales (safeScale : ℚ) : List ℚ :=
  [safeScale, safeScale * 0.7, safeScale * 0.5, 0.25].filter (fun s => 0.1 < s)

/-- The mutable Konva stage state touched by the export code: scale and
pixel size. -/
structure Stage where
  scaleX : ℚ
  scaleY : ℚ
  width : ℚ
  height : ℚ
deriving Repr, DecidableEq

/-- The `for (const scale of scales)` loop of `attemptExport`.  `encode`
abstracts `stage.toCanvas()` + `canvasToBlobAsync` at a given scale (the
only varying input); each attempt first resizes/rescales the stage to
`round(scale·fullWidth) × round(scale·fullHeight)`.  `last` is the
`lastError` accumulator; on exhaustion the loop throws it. -/
def attemptLoop {ε β : Type} (encode : ℚ → Except ε β) (fullWidth fullHeight : ℚ) :
    List ℚ → Stage → Option ε → Stage × Except (Option ε) (β × ℚ)
  | [], stage, last => (stage, Except.error last)
  | scale :: rest, _, last =>
    let stage' : Stage :=
      { scaleX := scale, scaleY := scale,
        width := (jsRound (fullWidth * scale) : ℚ),
        height := (jsRound (fullHeight * scale) : ℚ) }
    match encode scale with
    | Except.ok blob => (stage', Except.ok (blob, scale))
    | Except.error e => attemptLoop encode fullWidth fullHeight rest stage' (some e)

/-- `attemptExport` from src/App.tsx: build the ladder from
`getSafeExportScale` and run the retry loop.  Returns the stage as the
loop leaves it plus either `{blob, scale}` or the thrown `lastError`. -/
def attemptExport {ε β : Type} (encode : ℚ → Except ε β)
    (maxPixels fullWidth fullHeight : ℚ) (stage : Stage) :
    Stage × Except (Option ε) (β × ℚ) :=
  attemptLoop encode fullWidth fullHeight
    (exportScales (getSafeExportScale maxPixels fullWidth fullHeight)) stage none

/-- `handleDownload` from src/App.tsx, restricted to its interaction with
the stage and `attemptExport`: it saves `previousScale`/`previousSize`,
runs the export, and in `finally` restores both, so the returned stage is
the restored one on success and on failure alike. -/
def handleDownload {ε β : Type} (encode : ℚ → Except ε β)
    (maxPixels fullWidth fullHeight : ℚ) (stage : Stage) :
    Stage × Except (Option ε) (β × ℚ) :=
  let previousScaleX := stage.scaleX
  let previousScaleY := stage.scaleY
  let previousWidth := stage.width
  let previousHeight := stage.height
  let r := attemptExport encode maxPixels fullWidth fullHeight stage
  ({ scaleX := previousScaleX, scaleY := previousScaleY,
     width := previousWidth, height := previousHeight }, r.2)

/-! ## Size estimator (src/App.tsx) -/

/-- `dataUrlToBytes` from src/App.tsx: take the base64 payload after the
first comma (0 if absent or empty), count trailing `=` padding, and return
`Math.round(base64.length * 3 / 4 - padding)`. -/
def dataUrlToBytes (value : String) : ℚ :=
  match (value.splitOn ",").get? 1 with
  | none => 0
  | some base64 =>
    if base64.isEmpty then 0
    else
      let padding := ((base64.toList.reverse.takeWhile (fun c => c = '=')).length : ℚ)
      (jsRound ((base64.length : ℚ) * 3 / 4 - padding) : ℚ)

/-- `stageScaleFactor` from src/App.tsx:
`liveScale > 0 ? 1 / (liveScale * liveScale) : 1`. -/
def stageScaleFactor (liveScale : ℚ) : ℚ :=
  if 0 < liveScale then 1 / (liveScale * liveScale) else 1

/-- The size-estimation effect of src/App.tsx, on the uncancelled path:
`null` when no assets are loaded or `fullStageHeight ≤ 0`; otherwise the
result of `toDataURL` (modelled as `Option String`, `none` when encoding
throws) is converted with `dataUrlToBytes` and multiplied by
`stageScaleFactor`; encoding failure also yields `null`. -/
def estimateSize (assetsCount : ℕ) (fullStageHeight : ℚ) (scaleFactor : ℚ)
    (encoded : Option String) : Option ℚ :=
  if assetsCount = 0 ∨ fullStageHeight ≤ 0 then none
  else
    match encoded with
    | none => none
    | some previewUrl => some (dataUrlToBytes previewUrl * scaleFactor)

/-! ## List helper lemmas -/

/-- Default `LayoutItem` used with `List.getD`. -/
def defaultItem : LayoutItem := ⟨"", 0, 0, 0, 0⟩

/-- Default `BarePhoto` used with `List.getD`. -/
def defaultPhoto : BarePhoto := ⟨"", 0, 0⟩

lemma foldl_min_le_init : ∀ (l : List ℚ) (a : ℚ), l.foldl min a ≤ a := by
  intro l
  induction l with
  | nil => intro a; exact le_refl a
  | cons b t ih =>
    intro a
    calc (b :: t).foldl min a = t.foldl min (min a b) := rfl
    _ ≤ min a b := ih (min a b)
    _ ≤ a := min_le_left a b

lemma foldl_min_le_mem : ∀ (l : List ℚ) (a x : ℚ), x ∈ l → l.foldl min a ≤ x := by
  intro l
  induction l with
  | nil => intro a x hx; cases hx
  | cons b t ih =>
    intro a x hx
    rcases List.mem_cons.mp hx with h | h
    · subst h
      calc (x :: t).foldl min a = t.foldl min (min a x) := rfl
      _ ≤ min a x := foldl_min_le_init t (min a x)
      _ ≤ x := min_le_right a x
    · exact ih (min a b) x h

lemma foldl_min_choice : ∀ (l : List ℚ) (a : ℚ), l.foldl min a = a ∨ l.foldl min a ∈ l := by
  intro l
  induction l with
  | nil => intro a; exact Or.inl rfl
  | cons b t ih =>
    intro a
    rcases ih (min a b) with h | h
    · rcases min_choice a b with h2 | h2
      · exact Or.inl (by rw [show (b :: t).foldl min a = t.foldl min (min a b) from rfl, h, h2])
      · refine Or.inr (List.mem_cons.mpr (Or.inl ?_))
        rw [show (b :: t).foldl min a = t.foldl min (min a b) from rfl, h, h2]
    · exact Or.inr (List.mem_cons.mpr (Or.inr h))

lemma foldl_max_init_le : ∀ (l : List ℚ) (a : ℚ), a ≤ l.foldl max a := by
  intro l
  induction l with
  | nil => intro a; exact le_refl a
  | cons b t ih =>
    intro a
    calc a ≤ max a b := le_max_left a b
    _ ≤ t.foldl max (max a b) := ih (max a b)
    _ = (b :: t).foldl max a := rfl

lemma foldl_max_mem_le : ∀ (l : List ℚ) (a x : ℚ), x ∈ l → x ≤ l.foldl max a := by
  intro l
  induction l with
  | nil => intro a x hx; cases hx
  | cons b t ih =>
    intro a x hx
    rcases List.mem_cons.mp hx with h | h
    · subst h
      calc x ≤ max a x := le_max_right a x
      _ ≤ t.foldl max (max a x) := foldl_max_init_le t (max a x)
      _ = (x :: t).foldl max a := rfl
    · exact ih (max a b) x h

lemma foldl_max_choice : ∀ (l : List ℚ) (a : ℚ), l.foldl max a = a ∨ l.foldl max a ∈ l := by
  intro l
  induction l with
  | nil => intro a; exact Or.inl rfl
  | cons b t ih =>
    intro a
    rcases ih (max a b) with h | h
    · rcases max_choice a b with h2 | h2
      · exact Or.inl (by rw [show (b :: t).foldl max a = t.foldl max (max a b) from rfl, h, h2])
      · refine Or.inr (List.mem_cons.mpr (Or.inl ?_))
        rw [show (b :: t).foldl max a = t.foldl max (max a b) from rfl, h, h2]
    · exact Or.inr (List.mem_cons.mpr (Or.inr h))

lemma listMin_mem (a : ℚ) (t : List ℚ) : listMin (a :: t) ∈ a :: t := by
  rcases foldl_min_choice t a with h | h
  · exact List.mem_cons.mpr (Or.inl (by rw [listMin, h]))
  · exact List.mem_cons.mpr (Or.inr (by rw [listMin]; exact h))

lemma listMin_le (a : ℚ) (t : List ℚ) : ∀ x ∈ a :: t, listMin (a :: t) ≤ x := by
  intro x hx
  rcases List.mem_cons.mp hx with h | h
  · subst h; exact foldl_min_le_init t x
  · exact foldl_min_le_mem t a x h

lemma listMax_mem (a : ℚ) (t : List ℚ) : listMax (a :: t) ∈ a :: t := by
  rcases foldl_max_choice t a with h | h
  · exact List.mem_cons.mpr (Or.inl (by rw [listMax, h]))
  · exact List.mem_cons.mpr (Or.inr (by rw [listMax]; exact h))

lemma le_listMax (a : ℚ) (t : List ℚ) : ∀ x ∈ a :: t, x ≤ listMax (a :: t) := by
  intro x hx
  rcases List.mem_cons.mp hx with h | h
  · subst h; exact foldl_max_init_le t x
  · exact foldl_max_mem_le t a x h

lemma getDQ_mem : ∀ (l : List ℚ) (j : ℕ), j < l.length → l.getD j 0 ∈ l := by
  intro l
  induction l with
  | nil => intro j hj; simp at hj
  | cons a t ih =>
    intro j hj
    cases j with
    | zero => exact List.mem_cons.mpr (Or.inl rfl)
    | succ j =>
      refine List.mem_cons.mpr (Or.inr ?_)
      exact ih j (by simpa using Nat.lt_of_succ_lt_succ hj)

lemma idxOfQ_lt_length : ∀ (l : List ℚ) (x : ℚ), x ∈ l → idxOfQ x l < l.length := by
  intro l
  induction l with
  | nil => intro x hx; cases hx
  | cons a t ih =>
    intro x hx
    by_cases h : a = x
    · simp [idxOfQ, h]
    · rcases List.mem_cons.mp hx with h2 | h2
      · exact absurd h2.symm h
      · simpa [idxOfQ, h] using Nat.succ_lt_succ (ih x h2)

lemma idxOfQ_getD : ∀ (l : List ℚ) (x : ℚ), x ∈ l → l.getD (idxOfQ x l) 0 = x := by
  intro l
  induction l with
  | nil => intro x hx; cases hx
  | cons a t ih =>
    intro x hx
    by_cases h : a = x
    · simp [idxOfQ, h]
    · rcases List.mem_cons.mp hx with h2 | h2
      · exact absurd h2.symm h
      · simpa [idxOfQ, h] using ih x h2

lemma idxOfQ_earlier_ne : ∀ (l : List ℚ) (x : ℚ) (j : ℕ), j < idxOfQ x l → l.getD j 0 ≠ x := by
  intro l
  induction l with
  | nil => intro x j hj; simp [idxOfQ] at hj
  | cons a t ih =>
    intro x j hj
    by_cases h : a = x
    · simp [idxOfQ, h] at hj
    · cases j with
      | zero => simpa using h
      | succ j =>
        have hj' : j < idxOfQ x t := by
          have := hj
          simp only [idxOfQ, if_neg h] at this
          exact Nat.lt_of_succ_lt_succ this
        simpa using ih x j hj'

/-- `minIdx` is a valid index, picks a column of minimal height, and every
earlier column is strictly taller. -/
lemma minIdx_spec (heights : List ℚ) (hne : heights ≠ []) :
    minIdx heights < heights.length ∧
    (∀ j, j < heights.length → heights.getD (minIdx heights) 0 ≤ heights.getD j 0) ∧
    (∀ j, j < minIdx heights → heights.getD (minIdx heights) 0 < heights.getD j 0) := by
  obtain ⟨a, t, rfl⟩ := List.exists_cons_of_ne_nil hne
  have hmem : listMin (a :: t) ∈ a :: t := listMin_mem a t
  have hidx : minIdx (a :: t) < (a :: t).length := idxOfQ_lt_length _ _ hmem
  have hget : (a :: t).getD (minIdx (a :: t)) 0 = listMin (a :: t) := idxOfQ_getD _ _ hmem
  refine ⟨hidx, ?_, ?_⟩
  · intro j hj
    rw [hget]
    exact listMin_le a t _ (getDQ_mem _ j hj)
  · intro j hj
    have hne2 : (a :: t).getD j 0 ≠ listMin (a :: t) := idxOfQ_earlier_ne _ _ j hj
    have hle : listMin (a :: t) ≤ (a :: t).getD j 0 := by
      have hjlen : j < (a :: t).length := lt_trans hj hidx
      exact listMin_le a t _ (getDQ_mem _ j hjlen)
    rw [hget]
    exact lt_of_le_of_ne hle (fun h => hne2 h.symm)

lemma getDQ_set_self : ∀ (l : List ℚ) (i : ℕ) (v : ℚ), i < l.length →
    (l.set i v).getD i 0 = v := by
  intro l
  induction l with
  | nil => intro i v hi; simp at hi
  | cons a t ih =>
    intro i v hi
    cases i with
    | zero => rfl
    | succ i => simpa using ih i v (by simpa using Nat.lt_of_succ_lt_succ hi)

lemma getDQ_set_ne : ∀ (l : List ℚ) (i j : ℕ) (v : ℚ), j ≠ i →
    (l.set i v).getD j 0 = l.getD j 0 := by
  intro l
  induction l with
  | nil => intro i j v _; simp
  | cons a t ih =>
    intro i j v hji
    cases i with
    | zero =>
      cases j with
      | zero => exact absurd rfl hji
      | succ j => rfl
    | succ i =>
      cases j with
      | zero => rfl
      | succ j => simpa using ih i j v (fun h => hji (by rw [h]))

lemma getD_le_listMax (l : List ℚ) (j : ℕ) (hj : j < l.length) :
    l.getD j 0 ≤ listMax l := by
  have hne : l ≠ [] := List.ne_nil_of_length_pos (Nat.lt_of_le_of_lt (Nat.zero_le j) hj)
  obtain ⟨a, t, rfl⟩ := List.exists_cons_of_ne_nil hne
  exact le_listMax a t _ (getDQ_mem _ j hj)

/-- Setting the value of the first-minimal column cannot lower the maximal
column height, provided there are at least two columns: the maximum is also
attained at another column. -/
lemma listMax_set_minIdx_ge (l : List ℚ) (h2 : 2 ≤ l.length) (v : ℚ) :
    listMax l ≤ listMax (l.set (minIdx l) v) := by
  have hne : l ≠ [] := by
    intro h
    rw [h] at h2
    simp at h2
  obtain ⟨a, t, rfl⟩ := List.exists_cons_of_ne_nil hne
  set l := a :: t with hl
  have hmaxmem : listMax l ∈ l := listMax_mem a t
  have hminmem : listMin l ∈ l := listMin_mem a t
  have hjlt : idxOfQ (listMax l) l < l.length := idxOfQ_lt_length l _ hmaxmem
  have hjget : l.getD (idxOfQ (listMax l) l) 0 = listMax l := idxOfQ_getD l _ hmaxmem
  have hleset : ∀ j, j < l.length → j ≠ minIdx l → l.getD j 0 = listMax l →
      listMax l ≤ listMax (l.set (minIdx l) v) := by
    intro j hj hji hget
    have h1 : (l.set (minIdx l) v).getD j 0 = l.getD j 0 := getDQ_set_ne l (minIdx l) j v hji
    have h2' : j < (l.set (minIdx l) v).length := by simpa using hj
    calc listMax l = (l.set (minIdx l) v).getD j 0 := by rw [h1, hget]
    _ ≤ listMax (l.set (minIdx l) v) := getD_le_listMax _ j h2'
  by_cases hji : idxOfQ (listMax l) l = minIdx l
  · have higet : l.getD (minIdx l) 0 = listMin l := idxOfQ_getD l _ hminmem
    have heq : listMin l = listMax l := by rw [← higet, ← hji, hjget]
    have hj2 : (if minIdx l = 0 then 1 else 0) < l.length := by
      by_cases h0 : minIdx l = 0
      · simpa [h0] using h2
      · simp only [if_neg h0]
        exact Nat.lt_of_lt_of_le (by norm_num) h2
    have hjne : (if minIdx l = 0 then 1 else 0) ≠ minIdx l := by
      by_cases h0 : minIdx l = 0
      · simp [h0]
      · simpa [h0] using fun h => h0 h.symm
    have hgetj : l.getD (if minIdx l = 0 then 1 else 0) 0 = listMax l := by
      have hle : l.getD (if minIdx l = 0 then 1 else 0) 0 ≤ listMax l :=
        getD_le_listMax l _ hj2
      have hge : listMin l ≤ l.getD (if minIdx l = 0 then 1 else 0) 0 :=
        listMin_le a t _ (getDQ_mem l _ hj2)
      rw [heq] at hge
      exact le_antisymm hle hge
    exact hleset _ hj2 hjne hgetj
  · exact hleset _ hjlt hji hjget

lemma getD_append_left {α : Type} (l l2 : List α) (d : α) :
    ∀ k, k < l.length → (l ++ l2).getD k d = l.getD k d := by
  induction l with
  | nil => intro k hk; simp at hk
  | cons a t ih =>
    intro k hk
    cases k with
    | zero => rfl
    | succ k => simpa using ih k (by simpa using Nat.lt_of_succ_lt_succ hk)

lemma getD_append_length {α : Type} (l : List α) (x d : α) :
    (l ++ [x]).getD l.length d = x := by
  induction l with
  | nil => rfl
  | cons a t ih => simpa using ih

/-- Each photo contributes exactly one item; the item of the `k`-th photo
has width `columnWidth` and height `photo.height / photo.width *
columnWidth`. -/
lemma masonry_foldl_items (cw g : ℚ) :
    ∀ (photos : List BarePhoto) (st : MasonryState),
      ((photos.foldl (masonryStep cw g) st).items.length = st.items.length + photos.length) ∧
      (∀ k, k < st.items.length →
        (photos.foldl (masonryStep cw g) st).items.getD k defaultItem =
          st.items.getD k defaultItem) ∧
      (∀ k, k < photos.length →
        ((photos.foldl (masonryStep cw g) st).items.getD (st.items.length + k) defaultItem).width
          = cw ∧
        ((photos.foldl (masonryStep cw g) st).items.getD (st.items.length + k) defaultItem).height
          = (photos.getD k defaultPhoto).height / (photos.getD k defaultPhoto).width * cw) := by
  intro photos
  induction photos with
  | nil =>
    intro st
    refine ⟨by simp, fun k _ => rfl, fun k hk => absurd hk (by simp)⟩
  | cons p rest ih =>
    intro st
    have hfold : (p :: rest).foldl (masonryStep cw g) st =
        rest.foldl (masonryStep cw g) (masonryStep cw g st p) := rfl
    set st' := masonryStep cw g st p with hst'
    have hitems : st'.items = st.items ++
        [⟨p.id, ((minIdx st.heights : ℚ)) * (cw + g), st.heights.getD (minIdx st.heights) 0,
          cw, p.height / p.width * cw⟩] := rfl
    have hlen' : st'.items.length = st.items.length + 1 := by
      rw [hitems]; simp
    obtain ⟨ih1, ih2, ih3⟩ := ih st'
    refine ⟨?_, ?_, ?_⟩
    · rw [hfold, ih1, hlen']
      simp [Nat.add_assoc, Nat.add_comm 1 rest.length]
    · intro k hk
      have hk' : k < st'.items.length := by rw [hlen']; exact Nat.lt_succ_of_lt hk
      rw [hfold, ih2 k hk', hitems, getD_append_left st.items _ defaultItem k hk]
    · intro k hk
      cases k with
      | zero =>
        have hk' : st.items.length < st'.items.length := by rw [hlen']; exact Nat.lt_succ_self _
        have h1 : (rest.foldl (masonryStep cw g) st').items.getD st.items.length defaultItem =
            st'.items.getD st.items.length defaultItem := ih2 st.items.length hk'
        rw [hfold]
        simp only [Nat.add_zero]
        rw [h1, hitems, getD_append_length]
        exact ⟨rfl, rfl⟩
      | succ k =>
        have hk' : k < rest.length := by simpa using Nat.lt_of_succ_lt_succ hk
        have hidx : st.items.length + (k + 1) = st'.items.length + k := by
          rw [hlen']; omega
        rw [hfold, hidx]
        exact ih3 k hk'

lemma getD_mem_of_lt {α : Type} (l : List α) (d : α) :
    ∀ k, k < l.length → l.getD k d ∈ l := by
  induction l with
  | nil => intro k hk; simp at hk
  | cons a t ih =>
    intro k hk
    cases k with
    | zero => exact List.mem_cons.mpr (Or.inl rfl)
    | succ k =>
      exact List.mem_cons.mpr (Or.inr (ih k (by simpa using Nat.lt_of_succ_lt_succ hk)))

lemma forall_mem_of_forall_getD {α : Type} (l : List α) (d : α) (P : α → Prop)
    (h : ∀ k, k < l.length → P (l.getD k d)) : ∀ x ∈ l, P x := by
  induction l with
  | nil => intro x hx; cases hx
  | cons a t ih =>
    intro x hx
    rcases List.mem_cons.mp hx with rfl | hx
    · exact h 0 (by simp)
    · exact ih (fun k hk => h (k + 1) (by simpa using Nat.succ_lt_succ hk)) x hx

lemma computeMasonryLayout_items (photos : List BarePhoto) (options : MasonryOptions) :
    (computeMasonryLayout photos options).items =
      (photos.foldl (masonryStep (masonryColumnWidth options) (masonryGutter options))
        ⟨List.replicate (masonryColumns options) 0, []⟩).items := rfl

lemma computeMasonryLayout_height (photos : List BarePhoto) (options : MasonryOptions) :
    (computeMasonryLayout photos options).height =
      max 0 (listMax (photos.foldl
          (masonryStep (masonryColumnWidth options) (masonryGutter options))
          ⟨List.replicate (masonryColumns options) 0, []⟩).heights -
        masonryGutter options) := rfl

/-! ## Claims about the masonry layout -/

/-- C4: at every step of `computeMasonryLayout`, the chosen column
`minIdx heights` is a valid index whose running height is minimal, every
column before it is strictly taller (so ties are broken towards the
lowest index), and the step places the photo into exactly that column. -/
theorem masonry_min_column_selection (heights : List ℚ) (items : List LayoutItem)
    (photo : BarePhoto) (cw g : ℚ) (hne : heights ≠ []) :
    (minIdx heights < heights.length ∧
     (∀ j, j < heights.length → heights.getD (minIdx heights) 0 ≤ heights.getD j 0) ∧
     (∀ j, j < minIdx heights → heights.getD (minIdx heights) 0 < heights.getD j 0)) ∧
    masonryStep cw g ⟨heights, items⟩ photo =
      ⟨heights.set (minIdx heights)
         (heights.getD (minIdx heights) 0 + (photo.height / photo.width * cw + g)),
       items ++ [⟨photo.id, ((minIdx heights : ℕ) : ℚ) * (cw + g),
         heights.getD (minIdx heights) 0, cw, photo.height / photo.width * cw⟩]⟩ :=
  ⟨minIdx_spec heights hne, rfl⟩

/-- Witness for C4 on a two-column tie fixture `[3, 2, 2]`: the tie between
columns 1 and 2 is broken towards column 1. -/
theorem masonry_min_column_selection_witness :
    ([(3 : ℚ), 2, 2] ≠ []) ∧ minIdx [(3 : ℚ), 2, 2] = 1 ∧
    ((minIdx [(3 : ℚ), 2, 2] < ([(3 : ℚ), 2, 2]).length ∧
      (∀ j, j < ([(3 : ℚ), 2, 2]).length →
        ([(3 : ℚ), 2, 2]).getD (minIdx [(3 : ℚ), 2, 2]) 0 ≤ ([(3 : ℚ), 2, 2]).getD j 0) ∧
      (∀ j, j < minIdx [(3 : ℚ), 2, 2] →
        ([(3 : ℚ), 2, 2]).getD (minIdx [(3 : ℚ), 2, 2]) 0 < ([(3 : ℚ), 2, 2]).getD j 0)) ∧
     masonryStep 10 2 ⟨[(3 : ℚ), 2, 2], []⟩ ⟨"p", 4, 3⟩ =
       ⟨([(3 : ℚ), 2, 2]).set (minIdx [(3 : ℚ), 2, 2])
          (([(3 : ℚ), 2, 2]).getD (minIdx [(3 : ℚ), 2, 2]) 0 + ((3 : ℚ) / 4 * 10 + 2)),
        [] ++ [⟨"p", ((minIdx [(3 : ℚ), 2, 2] : ℕ) : ℚ) * (10 + 2),
          ([(3 : ℚ), 2, 2]).getD (minIdx [(3 : ℚ), 2, 2]) 0, 10, (3 : ℚ) / 4 * 10⟩]⟩) :=
  ⟨by simp, by decide,
    masonry_min_column_selection [(3 : ℚ), 2, 2] [] ⟨"p", 4, 3⟩ 10 2 (by simp)⟩

/-- C6 (amended): with positive photo dimensions and a positive derived
column width, `computeMasonryLayout` yields one item per photo, all items
have positive width and height, and the result height is nonnegative. -/
theorem masonry_wellformed (photos : List BarePhoto) (options : MasonryOptions)
    (hdims : ∀ p ∈ photos, 0 < p.width ∧ 0 < p.height)
    (hcw : 0 < masonryColumnWidth options) :
    (computeMasonryLayout photos options).items.length = photos.length ∧
    (∀ it ∈ (computeMasonryLayout photos options).items, 0 < it.width ∧ 0 < it.height) ∧
    0 ≤ (computeMasonryLayout photos options).height := by
  obtain ⟨h1, _, h3⟩ := masonry_foldl_items (masonryColumnWidth options)
    (masonryGutter options) photos
    (⟨List.replicate (masonryColumns options) 0, []⟩ : MasonryState)
  have hzero : (⟨List.replicate (masonryColumns options) 0, []⟩ : MasonryState).items.length = 0 :=
    rfl
  rw [hzero] at h1 h3
  rw [computeMasonryLayout_items]
  refine ⟨by rw [h1]; simp, ?_, le_max_left 0 _⟩
  refine forall_mem_of_forall_getD _ defaultItem _ ?_
  intro k hk
  have hk' : k < photos.length := by rw [h1] at hk; simpa using hk
  obtain ⟨hw, hh⟩ := h3 k hk'
  rw [Nat.zero_add] at hw hh
  obtain ⟨hpw, hph⟩ := hdims _ (getD_mem_of_lt photos defaultPhoto k hk')
  constructor
  · rw [hw]; exact hcw
  · rw [hh]; exact mul_pos (div_pos hph hpw) hcw

/-- Witness for C6 (amended): a single 2×3 photo with columns 2, gutter 1,
width 11 (derived column width 5). -/
theorem masonry_wellformed_witness :
    ((∀ p ∈ [BarePhoto.mk "a" 2 3], 0 < p.width ∧ 0 < p.height) ∧
      0 < masonryColumnWidth ⟨2, 1, 11⟩) ∧
    ((computeMasonryLayout [BarePhoto.mk "a" 2 3] ⟨2, 1, 11⟩).items.length =
        ([BarePhoto.mk "a" 2 3]).length ∧
      (∀ it ∈ (computeMasonryLayout [BarePhoto.mk "a" 2 3] ⟨2, 1, 11⟩).items,
        0 < it.width ∧ 0 < it.height) ∧
      0 ≤ (computeMasonryLayout [BarePhoto.mk "a" 2 3] ⟨2, 1, 11⟩).height) :=
  ⟨⟨by norm_num,
    by norm_num [masonryColumnWidth, masonryGutter, masonryColumns,
      show Int.toNat 2 = 2 from rfl]⟩,
    masonry_wellformed [BarePhoto.mk "a" 2 3] ⟨2, 1, 11⟩ (by norm_num)
      (by norm_num [masonryColumnWidth, masonryGutter, masonryColumns,
        show Int.toNat 2 = 2 from rfl])⟩

/-- Counterexample to C6 as stated: with columns 2, gutter 100, width 10
(a config the claim allows, since it restricts neither gutter nor width),
the derived column width is −45 and the produced item has negative width. -/
theorem masonry_wellformed_counterexample :
    (∀ p ∈ [BarePhoto.mk "a" 1 1], 0 < p.width ∧ 0 < p.height) ∧
    (1 : ℚ) ≤ (MasonryOptions.mk 2 100 10).columns ∧ 0 ≤ (MasonryOptions.mk 2 100 10).gutter ∧
    0 < (MasonryOptions.mk 2 100 10).width ∧
    ¬ (∀ it ∈ (computeMasonryLayout [BarePhoto.mk "a" 1 1] ⟨2, 100, 10⟩).items,
        0 < it.width ∧ 0 < it.height) := by
  have hres : computeMasonryLayout [BarePhoto.mk "a" 1 1] ⟨2, 100, 10⟩ =
      ⟨10, 0, [⟨"a", 0, 0, -45, -45⟩]⟩ := by
    norm_num [computeMasonryLayout, masonryStep, masonryColumnWidth, masonryGutter,
      masonryColumns, minIdx, idxOfQ, listMin, listMax, List.replicate_succ,
      List.replicate_zero, show Int.toNat 2 = 2 from rfl]
  refine ⟨by norm_num, by norm_num, by norm_num, by norm_num, ?_⟩
  rw [hres]
  intro h
  have := (h ⟨"a", 0, 0, -45, -45⟩ (by norm_num)).1
  norm_num at this

/-- C9 (amended): while the derived column width is nonzero, each masonry
item preserves its photo's aspect ratio exactly, hence within `1e-6`. -/
theorem masonry_aspect (photos : List BarePhoto) (options : MasonryOptions)
    (hdims : ∀ p ∈ photos, 0 < p.width ∧ 0 < p.height)
    (hcw : masonryColumnWidth options ≠ 0) :
    ∀ k, k < photos.length →
      |((computeMasonryLayout photos options).items.getD k defaultItem).height /
          ((computeMasonryLayout photos options).items.getD k defaultItem).width -
        (photos.getD k defaultPhoto).height / (photos.getD k defaultPhoto).width|
        ≤ 1 / 1000000 := by
  intro k hk
  obtain ⟨_, _, h3⟩ := masonry_foldl_items (masonryColumnWidth options)
    (masonryGutter options) photos
    (⟨List.replicate (masonryColumns options) 0, []⟩ : MasonryState)
  have hzero : (⟨List.replicate (masonryColumns options) 0, []⟩ : MasonryState).items.length = 0 :=
    rfl
  rw [hzero] at h3
  obtain ⟨hw, hh⟩ := h3 k hk
  rw [Nat.zero_add] at hw hh
  rw [computeMasonryLayout_items, hw, hh,
    mul_div_assoc, div_self hcw, mul_one, sub_self, abs_zero]
  norm_num

/-- Witness for C9 (amended): the single-photo fixture of the C6 witness. -/
theorem masonry_aspect_witness :
    ((∀ p ∈ [BarePhoto.mk "a" 2 3], 0 < p.width ∧ 0 < p.height) ∧
      masonryColumnWidth ⟨2, 1, 11⟩ ≠ 0) ∧
    (∀ k, k < ([BarePhoto.mk "a" 2 3]).length →
      |((computeMasonryLayout [BarePhoto.mk "a" 2 3] ⟨2, 1, 11⟩).items.getD k
            defaultItem).height /
          ((computeMasonryLayout [BarePhoto.mk "a" 2 3] ⟨2, 1, 11⟩).items.getD k
            defaultItem).width -
        (([BarePhoto.mk "a" 2 3]).getD k defaultPhoto).height /
          (([BarePhoto.mk "a" 2 3]).getD k defaultPhoto).width| ≤ 1 / 1000000) :=
  ⟨⟨by norm_num,
    by norm_num [masonryColumnWidth, masonryGutter, masonryColumns,
      show Int.toNat 2 = 2 from rfl]⟩,
    masonry_aspect [BarePhoto.mk "a" 2 3] ⟨2, 1, 11⟩ (by norm_num)
      (by norm_num [masonryColumnWidth, masonryGutter, masonryColumns,
        show Int.toNat 2 = 2 from rfl])⟩

/-- Counterexample to C9 as stated: with width 0 the derived column width
is 0, the produced item is 0×0, and `0/0 = 0` differs from the photo's
aspect ratio 1 by more than `1e-6`. -/
theorem masonry_aspect_counterexample :
    (∀ p ∈ [BarePhoto.mk "a" 1 1], 0 < p.width ∧ 0 < p.height) ∧
    ¬ |((computeMasonryLayout [BarePhoto.mk "a" 1 1] ⟨1, 0, 0⟩).items.getD 0
            defaultItem).height /
        ((computeMasonryLayout [BarePhoto.mk "a" 1 1] ⟨1, 0, 0⟩).items.getD 0
            defaultItem).width -
        (([BarePhoto.mk "a" 1 1]).getD 0 defaultPhoto).height /
          (([BarePhoto.mk "a" 1 1]).getD 0 defaultPhoto).width| ≤ 1 / 1000000 := by
  have hres : computeMasonryLayout [BarePhoto.mk "a" 1 1] ⟨1, 0, 0⟩ =
      ⟨0, 0, [⟨"a", 0, 0, 0, 0⟩]⟩ := by
    norm_num [computeMasonryLayout, masonryStep, masonryColumnWidth, masonryGutter,
      masonryColumns, minIdx, idxOfQ, listMin, listMax, List.replicate_succ,
      List.replicate_zero, show Int.toNat 1 = 1 from rfl]
  refine ⟨by norm_num, ?_⟩
  rw [hres]
  norm_num [defaultItem, defaultPhoto]

/-- Raising one entry of a list cannot lower its maximum. -/
lemma listMax_set_ge_of_le (l : List ℚ) (i : ℕ) (v : ℚ) (hi : i < l.length)
    (hv : l.getD i 0 ≤ v) : listMax l ≤ listMax (l.set i v) := by
  have hne : l ≠ [] := List.ne_nil_of_length_pos (Nat.lt_of_le_of_lt (Nat.zero_le i) hi)
  obtain ⟨a, t, rfl⟩ := List.exists_cons_of_ne_nil hne
  set l := a :: t with hl
  have hmaxmem : listMax l ∈ l := listMax_mem a t
  have hjlt : idxOfQ (listMax l) l < l.length := idxOfQ_lt_length l _ hmaxmem
  have hjget : l.getD (idxOfQ (listMax l) l) 0 = listMax l := idxOfQ_getD l _ hmaxmem
  by_cases hji : idxOfQ (listMax l) l = i
  · have h1 : (l.set i v).getD i 0 = v := getDQ_set_self l i v hi
    calc listMax l = l.getD i 0 := by rw [← hji, hjget]
    _ ≤ v := hv
    _ = (l.set i v).getD i 0 := h1.symm
    _ ≤ listMax (l.set i v) := getD_le_listMax _ i (by simpa using hi)
  · have h1 : (l.set i v).getD (idxOfQ (listMax l) l) 0 = l.getD (idxOfQ (listMax l) l) 0 :=
      getDQ_set_ne l i _ v hji
    calc listMax l = (l.set i v).getD (idxOfQ (listMax l) l) 0 := by rw [h1, hjget]
    _ ≤ listMax (l.set i v) := getD_le_listMax _ _ (by simpa using hjlt)

/-- Invariant of the masonry loop: every placed item's bottom edge plus
gutter stays below the tallest running column height, provided there are
two or more columns or the column width is nonnegative. -/
lemma masonry_foldl_contained (cw g : ℚ) (hg : 0 ≤ g) (cols : ℕ)
    (hcols : 1 ≤ cols) (hcase : 2 ≤ cols ∨ 0 ≤ cw) :
    ∀ (photos : List BarePhoto) (st : MasonryState),
      (∀ p ∈ photos, 0 < p.width ∧ 0 < p.height) →
      st.heights.length = cols →
      (∀ it ∈ st.items, it.y + it.height + g ≤ listMax st.heights) →
      (photos.foldl (masonryStep cw g) st).heights.length = cols ∧
      (∀ it ∈ (photos.foldl (masonryStep cw g) st).items,
        it.y + it.height + g ≤ listMax (photos.foldl (masonryStep cw g) st).heights) := by
  intro photos
  induction photos with
  | nil => intro st _ hlen hinv; exact ⟨hlen, hinv⟩
  | cons p rest ih =>
    intro st hdims hlen hinv
    have hpdims : 0 < p.width ∧ 0 < p.height := hdims p (List.mem_cons.mpr (Or.inl rfl))
    have hrdims : ∀ q ∈ rest, 0 < q.width ∧ 0 < q.height :=
      fun q hq => hdims q (List.mem_cons.mpr (Or.inr hq))
    have hfold : (p :: rest).foldl (masonryStep cw g) st =
        rest.foldl (masonryStep cw g) (masonryStep cw g st p) := rfl
    set st' := masonryStep cw g st p with hst'
    have hne : st.heights ≠ [] :=
      List.ne_nil_of_length_pos (by rw [hlen]; exact Nat.lt_of_lt_of_le Nat.zero_lt_one hcols)
    have hidx : minIdx st.heights < st.heights.length := (minIdx_spec st.heights hne).1
    have hheights : st'.heights = st.heights.set (minIdx st.heights)
        (st.heights.getD (minIdx st.heights) 0 + (p.height / p.width * cw + g)) := rfl
    have hitems : st'.items = st.items ++
        [⟨p.id, ((minIdx st.heights : ℕ) : ℚ) * (cw + g),
          st.heights.getD (minIdx st.heights) 0, cw, p.height / p.width * cw⟩] := rfl
    have hlen' : st'.heights.length = cols := by
      rw [hheights, List.length_set, hlen]
    have hmono : listMax st.heights ≤ listMax st'.heights := by
      rw [hheights]
      rcases hcase with h2 | hcw
      · exact listMax_set_minIdx_ge st.heights (by rw [hlen]; exact h2) _
      · have hinc : 0 ≤ p.height / p.width * cw + g :=
          add_nonneg (mul_nonneg (le_of_lt (div_pos hpdims.2 hpdims.1)) hcw) hg
        exact listMax_set_ge_of_le st.heights _ _ hidx (le_add_of_nonneg_right hinc)
    have hinv' : ∀ it ∈ st'.items, it.y + it.height + g ≤ listMax st'.heights := by
      intro it hit
      rw [hitems] at hit
      rcases List.mem_append.mp hit with hold | hnew
      · exact le_trans (hinv it hold) hmono
      · have : it = ⟨p.id, ((minIdx st.heights : ℕ) : ℚ) * (cw + g),
            st.heights.getD (minIdx st.heights) 0, cw, p.height / p.width * cw⟩ := by
          simpa using hnew
        subst this
        have hself : st'.heights.getD (minIdx st.heights) 0 =
            st.heights.getD (minIdx st.heights) 0 + (p.height / p.width * cw + g) := by
          rw [hheights]
          exact getDQ_set_self st.heights _ _ hidx
        have hle : st'.heights.getD (minIdx st.heights) 0 ≤ listMax st'.heights :=
          getD_le_listMax _ _ (by rw [hlen']; rw [hlen] at hidx; exact hidx)
        simp only [LayoutItem.mk.injEq] at hle ⊢
        calc st.heights.getD (minIdx st.heights) 0 + p.height / p.width * cw + g
            = st.heights.getD (minIdx st.heights) 0 + (p.height / p.width * cw + g) := by ring
        _ = st'.heights.getD (minIdx st.heights) 0 := hself.symm
        _ ≤ listMax st'.heights := hle
    rw [hfold]
    exact ih st' hrdims hlen' hinv'

/-- The aspect-ratio sum the justified loop accumulates for a pending row. -/
def aspectSumL (l : List BarePhoto) : ℚ := (l.map (fun p => p.width / p.height)).sum

lemma aspectSumL_nil : aspectSumL [] = 0 := rfl

lemma aspectSumL_append_single (l : List BarePhoto) (p : BarePhoto) :
    aspectSumL (l ++ [p]) = aspectSumL l + p.width / p.height := by
  simp [aspectSumL]

lemma aspectSumL_pos (l : List BarePhoto) (hne : l ≠ [])
    (hdims : ∀ p ∈ l, 0 < p.width ∧ 0 < p.height) : 0 < aspectSumL l := by
  induction l with
  | nil => exact absurd rfl hne
  | cons p t ih =>
    have hp : 0 < p.width / p.height :=
      div_pos (hdims p (List.mem_cons.mpr (Or.inl rfl))).1
        (hdims p (List.mem_cons.mpr (Or.inl rfl))).2
    cases t with
    | nil => simpa [aspectSumL] using hp
    | cons q t2 =>
      have ht : 0 < aspectSumL (q :: t2) :=
        ih (by simp) (fun r hr => hdims r (List.mem_cons.mpr (Or.inr hr)))
      have : aspectSumL (p :: q :: t2) = p.width / p.height + aspectSumL (q :: t2) := by
        simp [aspectSumL]
      rw [this]
      exact add_pos hp ht

/-- Every item placed by `placeRow` sits at the row's `cursorY` and shares
the row's resolved height. -/
lemma placeRow_y_height (rh cy g : ℚ) :
    ∀ (l : List BarePhoto) (x0 : ℚ) (it : LayoutItem), it ∈ placeRow rh cy g l x0 →
      it.y = cy ∧ it.height = rh := by
  intro l
  induction l with
  | nil => intro x0 it hit; cases hit
  | cons p t ih =>
    intro x0 it hit
    rw [placeRow] at hit
    rcases List.mem_cons.mp hit with rfl | hit
    · exact ⟨rfl, rfl⟩
    · exact ih _ it hit

/-- A nonempty remainder always produces at least one flushed row (the
last photo forces a flush). -/
lemma justifiedAux_ne_nil (rh tw g : ℚ) :
    ∀ (rest cur : List BarePhoto) (asp cy : ℚ), rest ≠ [] →
      (justifiedAux rh tw g rest cur asp cy).1 ≠ [] := by
  intro rest
  induction rest with
  | nil => intro cur asp cy h; exact absurd rfl h
  | cons p rest2 ih =>
    intro cur asp cy _
    rw [justifiedAux]
    by_cases hcond : rh * (asp + p.width / p.height) +
        g * (((cur ++ [p]).length : ℚ) - 1) ≥ tw ∨ rest2.isEmpty = true
    · simp only [if_pos hcond]
      exact List.cons_ne_nil _ _
    · simp only [if_neg hcond]
      have hrest2 : rest2 ≠ [] := by
        intro h
        exact hcond (Or.inr (by rw [h]; rfl))
      exact ih (cur ++ [p]) (asp + p.width / p.height) cy hrest2

/-- Default `JustRow` used with `List.getD`. -/
def defaultRow : JustRow := ⟨[], 0, false⟩

lemma clampQ_mem (x lo hi : ℚ) (h : lo ≤ hi) :
    lo ≤ clampQ x lo hi ∧ clampQ x lo hi ≤ hi :=
  ⟨le_min (le_max_right x lo) h, min_le_right _ _⟩

lemma flushRowHeight_le_of_last (rh tw g : ℚ) (count : ℕ) (asp : ℚ) :
    flushRowHeight rh tw g count asp true ≤ rh := min_le_left _ _

lemma flushRowHeight_bounds_of_not_last (rh tw g : ℚ) (hrh : 0 < rh)
    (count : ℕ) (asp : ℚ) :
    rh * 0.75 ≤ flushRowHeight rh tw g count asp false ∧
    flushRowHeight rh tw g count asp false ≤ rh * 1.25 := by
  have hlohi : rh * 0.75 ≤ rh * 1.25 := by nlinarith
  exact clampQ_mem _ _ _ hlohi

lemma flushRowHeight_nonneg (rh tw g : ℚ) (hrh : 0 < rh) (count : ℕ) (asp : ℚ)
    (hasp : 0 < asp) (havail : 0 ≤ tw - g * ((count : ℚ) - 1)) (isLast : Bool) :
    0 ≤ flushRowHeight rh tw g count asp isLast := by
  have hideal : 0 ≤ (tw - g * ((count : ℚ) - 1)) / asp := div_nonneg havail (le_of_lt hasp)
  cases isLast with
  | true => exact le_min (le_of_lt hrh) hideal
  | false =>
    have hlo : (0 : ℚ) ≤ rh * 0.75 := by nlinarith
    exact le_trans hlo (flushRowHeight_bounds_of_not_last rh tw g hrh count asp).1

/-- Every row height produced by the justified loop is clamped to
`[0.75·rowHeight, 1.25·rowHeight]` except at the last position, which is
`min(rowHeight, idealHeight) ≤ rowHeight`. -/
lemma justifiedAux_height_bounds (rh tw g : ℚ) (hrh : 0 < rh) :
    ∀ (rest cur : List BarePhoto) (asp cy : ℚ),
      (∀ i, i + 1 < (justifiedAux rh tw g rest cur asp cy).1.length →
        rh * 0.75 ≤ ((justifiedAux rh tw g rest cur asp cy).1.getD i defaultRow).height ∧
        ((justifiedAux rh tw g rest cur asp cy).1.getD i defaultRow).height ≤ rh * 1.25) ∧
      (∀ i, i + 1 = (justifiedAux rh tw g rest cur asp cy).1.length →
        ((justifiedAux rh tw g rest cur asp cy).1.getD i defaultRow).height ≤ rh) := by
  intro rest
  induction rest with
  | nil =>
    intro cur asp cy
    constructor
    · intro i hi
      simp [justifiedAux] at hi
    · intro i hi
      simp [justifiedAux] at hi
  | cons p rest2 ih =>
    intro cur asp cy
    rw [justifiedAux]
    by_cases hcond : rh * (asp + p.width / p.height) +
        g * (((cur ++ [p]).length : ℚ) - 1) ≥ tw ∨ rest2.isEmpty = true
    · simp only [if_pos hcond]
      cases rest2 with
      | nil =>
        constructor
        · intro i hi
          simp [justifiedAux] at hi
        · intro i hi
          simp [justifiedAux] at hi
          subst hi
          simpa [justifiedAux] using
            flushRowHeight_le_of_last rh tw g (cur ++ [p]).length (asp + p.width / p.height)
      | cons q r =>
        have hlast : (q :: r : List BarePhoto).isEmpty = false := rfl
        have hne : (justifiedAux rh tw g (q :: r) [] 0
            (cy + flushRowHeight rh tw g (cur ++ [p]).length (asp + p.width / p.height)
              ((q :: r : List BarePhoto).isEmpty) + g)).1 ≠ [] :=
          justifiedAux_ne_nil rh tw g (q :: r) [] 0 _ (by simp)
        obtain ⟨ih1, ih2⟩ := ih [] 0
          (cy + flushRowHeight rh tw g (cur ++ [p]).length (asp + p.width / p.height)
            ((q :: r : List BarePhoto).isEmpty) + g)
        constructor
        · intro i hi
          cases i with
          | zero =>
            simpa [hlast] using
              flushRowHeight_bounds_of_not_last rh tw g hrh (cur ++ [p]).length
                (asp + p.width / p.height)
          | succ j =>
            have hj : j + 1 < (justifiedAux rh tw g (q :: r) [] 0
                (cy + flushRowHeight rh tw g (cur ++ [p]).length (asp + p.width / p.height)
                  ((q :: r : List BarePhoto).isEmpty) + g)).1.length := by
              simpa using Nat.lt_of_succ_lt_succ hi
            simpa using ih1 j hj
        · intro i hi
          cases i with
          | zero =>
            exfalso
            simp only [List.length_cons] at hi
            have : (justifiedAux rh tw g (q :: r) [] 0
                (cy + flushRowHeight rh tw g (cur ++ [p]).length (asp + p.width / p.height)
                  ((q :: r : List BarePhoto).isEmpty) + g)).1.length = 0 := by omega
            exact hne (List.length_eq_zero.mp this)
          | succ j =>
            have hj : j + 1 = (justifiedAux rh tw g (q :: r) [] 0
                (cy + flushRowHeight rh tw g (cur ++ [p]).length (asp + p.width / p.height)
                  ((q :: r : List BarePhoto).isEmpty) + g)).1.length := by
              simp only [List.length_cons] at hi
              omega
            simpa using ih2 j hj
    · simp only [if_neg hcond]
      exact ih (cur ++ [p]) (asp + p.width / p.height) cy

/-- Invariant of the justified loop: the cursor never moves up, and every
placed item's bottom edge stays at least one gutter above the final
cursor, provided the photos have positive dimensions, the target row
height is positive, and the gutter run of a full row never exceeds the
target width. -/
lemma justifiedAux_contained (rh tw g : ℚ) (hg : 0 ≤ g) (hrh : 0 < rh) :
    ∀ (rest cur : List BarePhoto) (cy : ℚ),
      (∀ p ∈ cur ++ rest, 0 < p.width ∧ 0 < p.height) →
      g * (((cur.length + rest.length : ℕ) : ℚ) - 1) ≤ tw →
      cy ≤ (justifiedAux rh tw g rest cur (aspectSumL cur) cy).2 ∧
      (∀ row ∈ (justifiedAux rh tw g rest cur (aspectSumL cur) cy).1,
        ∀ it ∈ row.items,
          it.y + it.height ≤ (justifiedAux rh tw g rest cur (aspectSumL cur) cy).2 - g) := by
  intro rest
  induction rest with
  | nil =>
    intro cur cy _ _
    exact ⟨le_refl cy, fun row hrow => absurd hrow (by simp [justifiedAux])⟩
  | cons p rest2 ih =>
    intro cur cy hdims hwidth
    have hwidth' : g * (((cur.length : ℚ) + rest2.length + 1) - 1) ≤ tw := by
      have : (((cur.length + (rest2.length + 1) : ℕ) : ℚ) - 1) =
          ((cur.length : ℚ) + rest2.length + 1) - 1 := by push_cast; ring
      rw [← this]
      simpa using hwidth
    have hcurw : g * (cur.length : ℚ) ≤ tw := by
      have h1 : g * (cur.length : ℚ) ≤ g * ((cur.length : ℚ) + rest2.length) := by
        have : (cur.length : ℚ) ≤ (cur.length : ℚ) + rest2.length := by
          have : (0 : ℚ) ≤ (rest2.length : ℚ) := Nat.cast_nonneg _
          linarith
        exact mul_le_mul_of_nonneg_left this hg
      calc g * (cur.length : ℚ) ≤ g * ((cur.length : ℚ) + rest2.length) := h1
      _ = g * (((cur.length : ℚ) + rest2.length + 1) - 1) := by ring
      _ ≤ tw := hwidth'
    have hpdims : 0 < p.width ∧ 0 < p.height := hdims p (by simp)
    have hcur'dims : ∀ q ∈ cur ++ [p], 0 < q.width ∧ 0 < q.height := by
      intro q hq
      rcases List.mem_append.mp hq with h | h
      · exact hdims q (List.mem_append.mpr (Or.inl h))
      · rw [List.mem_singleton.mp h]
        exact hpdims
    have hasp' : 0 < aspectSumL cur + p.width / p.height := by
      rw [← aspectSumL_append_single]
      exact aspectSumL_pos (cur ++ [p]) (by simp) hcur'dims
    rw [justifiedAux]
    by_cases hcond : rh * (aspectSumL cur + p.width / p.height) +
        g * (((cur ++ [p]).length : ℚ) - 1) ≥ tw ∨ rest2.isEmpty = true
    · simp only [if_pos hcond]
      have havail : 0 ≤ tw - g * ((((cur ++ [p]).length : ℕ) : ℚ) - 1) := by
        have hlen : (((cur ++ [p]).length : ℕ) : ℚ) - 1 = (cur.length : ℚ) := by
          push_cast [List.length_append, List.length_singleton]
          ring
        rw [hlen]
        linarith
      have hhnn : 0 ≤ flushRowHeight rh tw g (cur ++ [p]).length
          (aspectSumL cur + p.width / p.height) rest2.isEmpty :=
        flushRowHeight_nonneg rh tw g hrh _ _ hasp' havail rest2.isEmpty
      set h := flushRowHeight rh tw g (cur ++ [p]).length
        (aspectSumL cur + p.width / p.height) rest2.isEmpty with hhdef
      have hrestw : g * (((0 + rest2.length : ℕ) : ℚ) - 1) ≤ tw := by
        have hle : ((0 + rest2.length : ℕ) : ℚ) - 1 ≤ ((cur.length : ℚ) + rest2.length + 1) - 1 := by
          have : (0 : ℚ) ≤ (cur.length : ℚ) := Nat.cast_nonneg _
          push_cast
          linarith
        calc g * (((0 + rest2.length : ℕ) : ℚ) - 1)
            ≤ g * (((cur.length : ℚ) + rest2.length + 1) - 1) := mul_le_mul_of_nonneg_left hle hg
        _ ≤ tw := hwidth'
      obtain ⟨ihcy, ihrows⟩ := ih [] (cy + h + g) (by simpa using
        (fun q hq => hdims q (List.mem_append.mpr (Or.inr (List.mem_cons.mpr (Or.inr hq)))))) hrestw
      have hcy : cy ≤ (justifiedAux rh tw g rest2 [] (aspectSumL []) (cy + h + g)).2 := by
        calc cy ≤ cy + h + g := by linarith
        _ ≤ _ := ihcy
      refine ⟨by simpa using hcy, ?_⟩
      intro row hrow it hit
      simp only [List.mem_cons] at hrow
      rcases hrow with rfl | hrow
      · obtain ⟨hity, hith⟩ := placeRow_y_height h cy g (cur ++ [p]) 0 it hit
        have : cy + h ≤ (justifiedAux rh tw g rest2 [] (aspectSumL []) (cy + h + g)).2 - g := by
          linarith
        rw [hity, hith]
        simpa using this
      · have := ihrows row hrow it hit
        simpa using this
    · simp only [if_neg hcond]
      rw [← aspectSumL_append_single]
      refine And.imp id ?_ (ih (cur ++ [p]) cy ?_ ?_)
      · exact id
      · intro q hq
        refine hdims q ?_
        rcases List.mem_append.mp hq with h | h
        · rcases List.mem_append.mp h with h2 | h2
          · exact List.mem_append.mpr (Or.inl h2)
          · rw [List.mem_singleton.mp h2]
            simp
        · exact List.mem_append.mpr (Or.inr (List.mem_cons.mpr (Or.inr h)))
      · have : ((((cur ++ [p]).length + rest2.length : ℕ) : ℚ) - 1) =
            (((cur.length : ℚ) + rest2.length + 1) - 1) := by
          push_cast [List.length_append, List.length_singleton]
          ring
        rw [this]
        exact hwidth'

/-- Every item of a flushed row carries that row's resolved height. -/
lemma justifiedAux_item_heights (rh tw g : ℚ) :
    ∀ (rest cur : List BarePhoto) (asp cy : ℚ),
      ∀ row ∈ (justifiedAux rh tw g rest cur asp cy).1, ∀ it ∈ row.items,
        it.height = row.height := by
  intro rest
  induction rest with
  | nil => intro cur asp cy row hrow; exact absurd hrow (by simp [justifiedAux])
  | cons p rest2 ih =>
    intro cur asp cy row hrow it hit
    rw [justifiedAux] at hrow
    by_cases hcond : rh * (asp + p.width / p.height) +
        g * (((cur ++ [p]).length : ℚ) - 1) ≥ tw ∨ rest2.isEmpty = true
    · simp only [if_pos hcond] at hrow
      simp only [List.mem_cons] at hrow
      rcases hrow with rfl | hrow
      · exact (placeRow_y_height _ cy g (cur ++ [p]) 0 it hit).2
      · exact ih [] 0 _ row hrow it hit
    · simp only [if_neg hcond] at hrow
      exact ih (cur ++ [p]) (asp + p.width / p.height) cy row hrow it hit

/-! ## Claims about the justified layout -/

/-- C5: every flushed row before the last has its resolved height clamped
to `[0.75·rowHeight, 1.25·rowHeight]`; the last row's height is
`min(rowHeight, idealHeight)`, hence at most `rowHeight`; and every item
of a row shares the row's height. -/
theorem justified_row_heights (photos : List BarePhoto) (options : JustifiedOptions)
    (hdims : ∀ p ∈ photos, 0 < p.width ∧ 0 < p.height)
    (hrh : 0 < options.rowHeight) (hg : 0 ≤ options.gutter) (hw : 0 < options.width) :
    (∀ i, i + 1 < (justifiedRows photos options).1.length →
      options.rowHeight * 0.75 ≤ ((justifiedRows photos options).1.getD i defaultRow).height ∧
      ((justifiedRows photos options).1.getD i defaultRow).height ≤
        options.rowHeight * 1.25) ∧
    (∀ i, i + 1 = (justifiedRows photos options).1.length →
      ((justifiedRows photos options).1.getD i defaultRow).height ≤ options.rowHeight) ∧
    (∀ row ∈ (justifiedRows photos options).1, ∀ it ∈ row.items,
      it.height = row.height) := by
  obtain ⟨h1, h2⟩ := justifiedAux_height_bounds options.rowHeight options.width
    (max 0 options.gutter) hrh photos [] 0 0
  exact ⟨h1, h2, justifiedAux_item_heights options.rowHeight options.width
    (max 0 options.gutter) photos [] 0 0⟩

/-- Witness for C5: six 1×100 photos with rowHeight 10, gutter 100,
width 150 produce two rows. -/
theorem justified_row_heights_witness :
    ((∀ p ∈ [BarePhoto.mk "a" 1 100, BarePhoto.mk "b" 1 100, BarePhoto.mk "c" 1 100,
        BarePhoto.mk "d" 1 100, BarePhoto.mk "e" 1 100, BarePhoto.mk "f" 1 100],
        0 < p.width ∧ 0 < p.height) ∧
      0 < (JustifiedOptions.mk 10 100 150).rowHeight ∧
      0 ≤ (JustifiedOptions.mk 10 100 150).gutter ∧
      0 < (JustifiedOptions.mk 10 100 150).width) ∧
    ((∀ i, i + 1 < (justifiedRows [BarePhoto.mk "a" 1 100, BarePhoto.mk "b" 1 100,
        BarePhoto.mk "c" 1 100, BarePhoto.mk "d" 1 100, BarePhoto.mk "e" 1 100,
        BarePhoto.mk "f" 1 100] ⟨10, 100, 150⟩).1.length →
      (10 : ℚ) * 0.75 ≤ ((justifiedRows [BarePhoto.mk "a" 1 100, BarePhoto.mk "b" 1 100,
        BarePhoto.mk "c" 1 100, BarePhoto.mk "d" 1 100, BarePhoto.mk "e" 1 100,
        BarePhoto.mk "f" 1 100] ⟨10, 100, 150⟩).1.getD i defaultRow).height ∧
      ((justifiedRows [BarePhoto.mk "a" 1 100, BarePhoto.mk "b" 1 100,
        BarePhoto.mk "c" 1 100, BarePhoto.mk "d" 1 100, BarePhoto.mk "e" 1 100,
        BarePhoto.mk "f" 1 100] ⟨10, 100, 150⟩).1.getD i defaultRow).height ≤
        (10 : ℚ) * 1.25) ∧
     (∀ i, i + 1 = (justifiedRows [BarePhoto.mk "a" 1 100, BarePhoto.mk "b" 1 100,
        BarePhoto.mk "c" 1 100, BarePhoto.mk "d" 1 100, BarePhoto.mk "e" 1 100,
        BarePhoto.mk "f" 1 100] ⟨10, 100, 150⟩).1.length →
      ((justifiedRows [BarePhoto.mk "a" 1 100, BarePhoto.mk "b" 1 100,
        BarePhoto.mk "c" 1 100, BarePhoto.mk "d" 1 100, BarePhoto.mk "e" 1 100,
        BarePhoto.mk "f" 1 100] ⟨10, 100, 150⟩).1.getD i defaultRow).height ≤ (10 : ℚ)) ∧
     (∀ row ∈ (justifiedRows [BarePhoto.mk "a" 1 100, BarePhoto.mk "b" 1 100,
        BarePhoto.mk "c" 1 100, BarePhoto.mk "d" 1 100, BarePhoto.mk "e" 1 100,
        BarePhoto.mk "f" 1 100] ⟨10, 100, 150⟩).1, ∀ it ∈ row.items,
      it.height = row.height)) :=
  ⟨⟨by norm_num, by norm_num, by norm_num, by norm_num⟩,
    justified_row_heights [BarePhoto.mk "a" 1 100, BarePhoto.mk "b" 1 100,
      BarePhoto.mk "c" 1 100, BarePhoto.mk "d" 1 100, BarePhoto.mk "e" 1 100,
      BarePhoto.mk "f" 1 100] ⟨10, 100, 150⟩ (by norm_num) (by norm_num) (by norm_num)
      (by norm_num)⟩

/-- C7 (amended): for both layouts the result width equals the configured
width exactly, and no item's bounding box extends below the result height,
provided additionally that the masonry width is nonnegative and that for
the justified layout the config is valid (`rowHeight > 0`) with
`gutter · (photoCount − 1) ≤ width`. -/
theorem layout_contained (photos : List BarePhoto)
    (mo : MasonryOptions) (jo : JustifiedOptions)
    (hdims : ∀ p ∈ photos, 0 < p.width ∧ 0 < p.height)
    (hmw : 0 ≤ mo.width) (hjg : 0 ≤ jo.gutter) (hjrh : 0 < jo.rowHeight)
    (hjw : jo.gutter * ((photos.length : ℚ) - 1) ≤ jo.width) :
    (computeMasonryLayout photos mo).width = mo.width ∧
    (computeJustifiedLayout photos jo).width = jo.width ∧
    (∀ it ∈ (computeMasonryLayout photos mo).items,
      it.y + it.height ≤ (computeMasonryLayout photos mo).height) ∧
    (∀ it ∈ (computeJustifiedLayout photos jo).items,
      it.y + it.height ≤ (computeJustifiedLayout photos jo).height) := by
  refine ⟨rfl, rfl, ?_, ?_⟩
  · -- masonry containment
    have hcols : 1 ≤ masonryColumns mo := le_max_left 1 _
    have hg : 0 ≤ masonryGutter mo := le_max_left 0 _
    have hcase : 2 ≤ masonryColumns mo ∨ 0 ≤ masonryColumnWidth mo := by
      rcases Nat.lt_or_ge (masonryColumns mo) 2 with h1 | h2
      · right
        have hone : masonryColumns mo = 1 := by omega
        have : masonryColumnWidth mo = mo.width := by
          rw [masonryColumnWidth, hone]
          norm_num
        rw [this]
        exact hmw
      · exact Or.inl h2
    obtain ⟨_, hfin⟩ := masonry_foldl_contained (masonryColumnWidth mo) (masonryGutter mo)
      hg (masonryColumns mo) hcols hcase photos
      (⟨List.replicate (masonryColumns mo) 0, []⟩ : MasonryState) hdims
      (List.length_replicate _ _) (fun it hit => absurd hit (by simp))
    intro it hit
    rw [computeMasonryLayout_items] at hit
    have h1 := hfin it hit
    rw [computeMasonryLayout_height]
    have h2 : it.y + it.height ≤ listMax (photos.foldl
        (masonryStep (masonryColumnWidth mo) (masonryGutter mo))
        (⟨List.replicate (masonryColumns mo) 0, []⟩ : MasonryState)).heights -
        masonryGutter mo := by linarith
    exact le_trans h2 (le_max_right 0 _)
  · -- justified containment
    have hgmax : max 0 jo.gutter = jo.gutter := max_eq_right hjg
    obtain ⟨_, hrows⟩ := justifiedAux_contained jo.rowHeight jo.width (max 0 jo.gutter)
      (le_max_left 0 _) hjrh photos [] 0 (by simpa using hdims)
      (by
        rw [hgmax]
        have : (((([] : List BarePhoto).length + photos.length : ℕ) : ℚ) - 1) =
            ((photos.length : ℚ) - 1) := by
          push_cast [List.length_nil]
          ring
        rw [this]
        exact hjw)
    intro it hit
    have hmem : ∃ row ∈ (justifiedRows photos jo).1, it ∈ row.items := by
      have : it ∈ ((justifiedRows photos jo).1.map JustRow.items).flatten := hit
      rw [List.mem_flatten] at this
      obtain ⟨l, hl, hitl⟩ := this
      rw [List.mem_map] at hl
      obtain ⟨row, hrow, rfl⟩ := hl
      exact ⟨row, hrow, hitl⟩
    obtain ⟨row, hrow, hitrow⟩ := hmem
    have hbound := hrows row hrow it hitrow
    have hheight : (computeJustifiedLayout photos jo).height =
        max 0 ((justifiedRows photos jo).2 - max 0 jo.gutter) := rfl
    rw [hheight]
    exact le_trans hbound (le_max_right 0 _)

/-- Witness for C7 (amended): one 2×3 photo, masonry config
columns 2 / gutter 1 / width 11, justified config rowHeight 10 /
gutter 2 / width 40. -/
theorem layout_contained_witness :
    ((∀ p ∈ [BarePhoto.mk "a" 2 3], 0 < p.width ∧ 0 < p.height) ∧
      0 ≤ (MasonryOptions.mk 2 1 11).width ∧
      0 ≤ (JustifiedOptions.mk 10 2 40).gutter ∧
      0 < (JustifiedOptions.mk 10 2 40).rowHeight ∧
      (JustifiedOptions.mk 10 2 40).gutter *
        ((([BarePhoto.mk "a" 2 3]).length : ℚ) - 1) ≤ (JustifiedOptions.mk 10 2 40).width) ∧
    ((computeMasonryLayout [BarePhoto.mk "a" 2 3] ⟨2, 1, 11⟩).width = (11 : ℚ) ∧
     (computeJustifiedLayout [BarePhoto.mk "a" 2 3] ⟨10, 2, 40⟩).width = (40 : ℚ) ∧
     (∀ it ∈ (computeMasonryLayout [BarePhoto.mk "a" 2 3] ⟨2, 1, 11⟩).items,
       it.y + it.height ≤ (computeMasonryLayout [BarePhoto.mk "a" 2 3] ⟨2, 1, 11⟩).height) ∧
     (∀ it ∈ (computeJustifiedLayout [BarePhoto.mk "a" 2 3] ⟨10, 2, 40⟩).items,
       it.y + it.height ≤ (computeJustifiedLayout [BarePhoto.mk "a" 2 3] ⟨10, 2, 40⟩).height)) :=
  ⟨⟨by norm_num, by norm_num, by norm_num, by norm_num, by norm_num⟩,
    layout_contained [BarePhoto.mk "a" 2 3] ⟨2, 1, 11⟩ ⟨10, 2, 40⟩
      (by norm_num) (by norm_num) (by norm_num) (by norm_num) (by norm_num)⟩

/-- Counterexample to C7 as stated: with positive photo dimensions,
`gutter ≥ 0` and an otherwise valid config (rowHeight 10 > 0,
width 150 > 0), a gutter of 100 makes the final justified row's ideal
height negative, pulling the cursor back above an earlier row, so the
first row's items stick out below the computed result height. -/
theorem layout_contained_counterexample :
    (∀ p ∈ [BarePhoto.mk "a" 1 100, BarePhoto.mk "b" 1 100, BarePhoto.mk "c" 1 100,
      BarePhoto.mk "d" 1 100, BarePhoto.mk "e" 1 100, BarePhoto.mk "f" 1 100],
      0 < p.width ∧ 0 < p.height) ∧
    0 < (JustifiedOptions.mk 10 100 150).rowHeight ∧
    0 ≤ (JustifiedOptions.mk 10 100 150).gutter ∧
    0 < (JustifiedOptions.mk 10 100 150).width ∧
    ¬ (∀ it ∈ (computeJustifiedLayout [BarePhoto.mk "a" 1 100, BarePhoto.mk "b" 1 100,
        BarePhoto.mk "c" 1 100, BarePhoto.mk "d" 1 100, BarePhoto.mk "e" 1 100,
        BarePhoto.mk "f" 1 100] ⟨10, 100, 150⟩).items,
        it.y + it.height ≤ (computeJustifiedLayout [BarePhoto.mk "a" 1 100,
          BarePhoto.mk "b" 1 100, BarePhoto.mk "c" 1 100, BarePhoto.mk "d" 1 100,
          BarePhoto.mk "e" 1 100, BarePhoto.mk "f" 1 100] ⟨10, 100, 150⟩).height) := by
  have hres : computeJustifiedLayout [BarePhoto.mk "a" 1 100, BarePhoto.mk "b" 1 100,
      BarePhoto.mk "c" 1 100, BarePhoto.mk "d" 1 100, BarePhoto.mk "e" 1 100,
      BarePhoto.mk "f" 1 100] ⟨10, 100, 150⟩ =
      ⟨150, 0,
        [⟨"a", 0, 0, 3/40, 15/2⟩, ⟨"b", 4003/40, 0, 3/40, 15/2⟩,
         ⟨"c", 4003/20, 0, 3/40, 15/2⟩, ⟨"d", 0, 215/2, -50/3, -5000/3⟩,
         ⟨"e", 250/3, 215/2, -50/3, -5000/3⟩, ⟨"f", 500/3, 215/2, -50/3, -5000/3⟩]⟩ := by
    norm_num [computeJustifiedLayout, justifiedRows, justifiedAux, flushRowHeight, clampQ,
      placeRow, aspectSumL]
  refine ⟨by norm_num, by norm_num, by norm_num, by norm_num, ?_⟩
  rw [hres]
  intro h
  have := h ⟨"a", 0, 0, 3/40, 15/2⟩ (by norm_num)
  norm_num at this

/-! ## Claims about the export pipeline -/

/-- `floor20Sqrt` computes `⌊20·√r⌋` exactly: the embedding's
`Nat.sqrt ⌊400·r⌋` agrees with `Math.floor(Math.sqrt(r) * 20)` over the
reals. -/
lemma floor20Sqrt_eq_floor_real_sqrt (r : ℚ) (hr : 0 ≤ r) :
    (floor20Sqrt r : ℤ) = ⌊20 * Real.sqrt ((r : ℝ))⌋ := by
  have h400 : (0 : ℚ) ≤ 400 * r := by positivity
  have hfl : (0 : ℤ) ≤ ⌊(400 * r : ℚ)⌋ := Int.floor_nonneg.mpr h400
  have hsqrt400 : Real.sqrt (400 * (r : ℝ)) = 20 * Real.sqrt (r : ℝ) := by
    rw [Real.sqrt_mul (by norm_num : (0 : ℝ) ≤ 400) (r : ℝ),
      show (400 : ℝ) = 20 ^ 2 by norm_num, Real.sqrt_sq (by norm_num : (0 : ℝ) ≤ 20)]
  set m : ℕ := Int.toNat ⌊(400 * r : ℚ)⌋ with hmdef
  have hmz : (m : ℤ) = ⌊(400 * r : ℚ)⌋ := Int.toNat_of_nonneg hfl
  set n : ℕ := Nat.sqrt m with hndef
  have hn2m : (n * n : ℕ) ≤ m := Nat.sqrt_le m
  have hmlt : m < (n + 1) * (n + 1) := Nat.lt_succ_sqrt m
  have hmle : (m : ℝ) ≤ 400 * (r : ℝ) := by
    have h1 : ((⌊(400 * r : ℚ)⌋ : ℚ) : ℝ) ≤ ((400 * r : ℚ) : ℝ) := by
      exact_mod_cast Int.floor_le (400 * r : ℚ)
    calc (m : ℝ) = ((m : ℤ) : ℝ) := by norm_cast
    _ = ((⌊(400 * r : ℚ)⌋ : ℚ) : ℝ) := by rw [hmz]; push_cast; ring
    _ ≤ ((400 * r : ℚ) : ℝ) := h1
    _ = 400 * (r : ℝ) := by push_cast; ring
  have hltm : 400 * (r : ℝ) < (m : ℝ) + 1 := by
    have h1 : ((400 * r : ℚ) : ℝ) < ((⌊(400 * r : ℚ)⌋ : ℚ) : ℝ) + 1 := by
      exact_mod_cast Int.lt_floor_add_one (400 * r : ℚ)
    calc 400 * (r : ℝ) = ((400 * r : ℚ) : ℝ) := by push_cast; ring
    _ < ((⌊(400 * r : ℚ)⌋ : ℚ) : ℝ) + 1 := h1
    _ = (m : ℝ) + 1 := by rw [← hmz]; push_cast; ring
  have hlow : (n : ℝ) ≤ 20 * Real.sqrt (r : ℝ) := by
    rw [← hsqrt400]
    refine Real.le_sqrt_of_sq_le ?_
    have hcast : ((n : ℝ)) ^ 2 = ((n * n : ℕ) : ℝ) := by push_cast; ring
    rw [hcast]
    calc ((n * n : ℕ) : ℝ) ≤ (m : ℝ) := by exact_mod_cast hn2m
    _ ≤ 400 * (r : ℝ) := hmle
  have hhigh : 20 * Real.sqrt (r : ℝ) < (n : ℝ) + 1 := by
    rw [← hsqrt400, Real.sqrt_lt' (by positivity : (0 : ℝ) < (n : ℝ) + 1)]
    calc 400 * (r : ℝ) < (m : ℝ) + 1 := hltm
    _ ≤ ((n : ℝ) + 1) ^ 2 := by
      have h1 : (m + 1 : ℕ) ≤ ((n + 1) * (n + 1) : ℕ) := hmlt
      have h2 : ((m + 1 : ℕ) : ℝ) ≤ (((n + 1) * (n + 1) : ℕ) : ℝ) := by exact_mod_cast h1
      calc (m : ℝ) + 1 = ((m + 1 : ℕ) : ℝ) := by push_cast; ring
      _ ≤ (((n + 1) * (n + 1) : ℕ) : ℝ) := h2
      _ = ((n : ℝ) + 1) ^ 2 := by push_cast; ring
  have : ⌊20 * Real.sqrt (r : ℝ)⌋ = (n : ℤ) := by
    rw [Int.floor_eq_iff]
    constructor
    · exact_mod_cast hlow
    · push_cast
      exact hhigh
  rw [this]
  rfl

/-- The safe scale is `1` when the area fits the ceiling; otherwise it is
`(floor20Sqrt of the ratio) / 20`. -/
lemma getSafeExportScale_of_le (maxPixels w h : ℚ) (hle : w * h ≤ maxPixels) :
    getSafeExportScale maxPixels w h = 1 := by
  simp [getSafeExportScale, hle]

lemma getSafeExportScale_of_gt (maxPixels w h : ℚ) (hle : ¬ w * h ≤ maxPixels) :
    getSafeExportScale maxPixels w h =
      (floor20Sqrt (maxPixels / (w * h)) : ℚ) / 20 := by
  simp [getSafeExportScale, hle]

/-- The floored 20-scale is at most 19 when the pixel budget is exceeded. -/
lemma floor20Sqrt_le_19 (maxPixels w h : ℚ) (hmax : 0 < maxPixels)
    (hwh : 0 < w * h) (hle : ¬ w * h ≤ maxPixels) :
    floor20Sqrt (maxPixels / (w * h)) ≤ 19 := by
  have hlt : maxPixels < w * h := lt_of_not_le hle
  have hr1 : maxPixels / (w * h) < 1 := (div_lt_one hwh).mpr hlt
  have h400 : (400 : ℚ) * (maxPixels / (w * h)) < 400 := by linarith
  have hfl : ⌊(400 * (maxPixels / (w * h)) : ℚ)⌋ ≤ 399 := by
    have h1 : ((⌊(400 * (maxPixels / (w * h)) : ℚ)⌋ : ℚ)) ≤ 400 * (maxPixels / (w * h)) :=
      Int.floor_le _
    have hx : ⌊(400 * (maxPixels / (w * h)) : ℚ)⌋ < 400 := by
      exact_mod_cast lt_of_le_of_lt h1 h400
    omega
  have hm : Int.toNat ⌊(400 * (maxPixels / (w * h)) : ℚ)⌋ ≤ 399 := by omega
  calc floor20Sqrt (maxPixels / (w * h)) = Nat.sqrt (Int.toNat ⌊(400 * (maxPixels / (w * h)) : ℚ)⌋) := rfl
  _ ≤ Nat.sqrt 399 := Nat.sqrt_le_sqrt hm
  _ = 19 := by norm_num [Nat.sqrt]

/-- C1: `getSafeExportScale` returns 1 exactly when `width·height` fits
the ceiling; otherwise it returns `⌊√(ceiling/(w·h))·20⌋/20`, an exact
multiple of 0.05, strictly below 1, whose squared application keeps the
scaled area within the ceiling. -/
theorem getSafeExportScale_spec (maxPixels w h : ℚ)
    (hmax : 0 < maxPixels) (hw : 0 < w) (hh : 0 < h) :
    (getSafeExportScale maxPixels w h = 1 ↔ w * h ≤ maxPixels) ∧
    (¬ w * h ≤ maxPixels →
      getSafeExportScale maxPixels w h =
        ((⌊20 * Real.sqrt (((maxPixels / (w * h) : ℚ)) : ℝ)⌋ : ℚ) / 20) ∧
      (∃ n : ℕ, getSafeExportScale maxPixels w h = (n : ℚ) * (5 / 100)) ∧
      getSafeExportScale maxPixels w h < 1 ∧
      getSafeExportScale maxPixels w h * w * (getSafeExportScale maxPixels w h * h)
        ≤ maxPixels) := by
  have hwh : 0 < w * h := mul_pos hw hh
  by_cases hle : w * h ≤ maxPixels
  · refine ⟨⟨fun _ => hle, fun _ => getSafeExportScale_of_le maxPixels w h hle⟩,
      fun hc => absurd hle hc⟩
  · have hval := getSafeExportScale_of_gt maxPixels w h hle
    have h19 : floor20Sqrt (maxPixels / (w * h)) ≤ 19 :=
      floor20Sqrt_le_19 maxPixels w h hmax hwh hle
    have hlt1 : getSafeExportScale maxPixels w h < 1 := by
      rw [hval]
      have : (floor20Sqrt (maxPixels / (w * h)) : ℚ) ≤ 19 := by exact_mod_cast h19
      linarith
    refine ⟨⟨fun h1 => absurd (h1 ▸ hlt1) (lt_irrefl 1), fun hc => absurd hc hle⟩, fun _ => ?_⟩
    have hr : (0 : ℚ) ≤ maxPixels / (w * h) := le_of_lt (div_pos hmax hwh)
    refine ⟨?_, ⟨floor20Sqrt (maxPixels / (w * h)), by rw [hval]; push_cast; ring⟩, hlt1, ?_⟩
    · rw [hval, ← floor20Sqrt_eq_floor_real_sqrt (maxPixels / (w * h)) hr]
      push_cast
      ring
    · rw [hval]
      have hsq : (floor20Sqrt (maxPixels / (w * h)) : ℚ) ^ 2 ≤ 400 * (maxPixels / (w * h)) := by
        have h400 : (0 : ℚ) ≤ 400 * (maxPixels / (w * h)) := by positivity
        have hfl0 : (0 : ℤ) ≤ ⌊(400 * (maxPixels / (w * h)) : ℚ)⌋ := Int.floor_nonneg.mpr h400
        have hn2 : (floor20Sqrt (maxPixels / (w * h)) * floor20Sqrt (maxPixels / (w * h)) : ℕ) ≤
            Int.toNat ⌊(400 * (maxPixels / (w * h)) : ℚ)⌋ := Nat.sqrt_le _
        have hcast : ((Int.toNat ⌊(400 * (maxPixels / (w * h)) : ℚ)⌋ : ℚ)) ≤
            400 * (maxPixels / (w * h)) := by
          have h1 : ((⌊(400 * (maxPixels / (w * h)) : ℚ)⌋ : ℚ)) ≤ 400 * (maxPixels / (w * h)) :=
            Int.floor_le _
          have h2 : ((Int.toNat ⌊(400 * (maxPixels / (w * h)) : ℚ)⌋ : ℤ) : ℚ) =
              ((⌊(400 * (maxPixels / (w * h)) : ℚ)⌋ : ℤ) : ℚ) := by
            exact_mod_cast congrArg (fun z : ℤ => (z : ℚ)) (Int.toNat_of_nonneg hfl0)
          calc ((Int.toNat ⌊(400 * (maxPixels / (w * h)) : ℚ)⌋ : ℚ))
              = ((⌊(400 * (maxPixels / (w * h)) : ℚ)⌋ : ℤ) : ℚ) := by exact_mod_cast h2
          _ ≤ 400 * (maxPixels / (w * h)) := h1
        calc (floor20Sqrt (maxPixels / (w * h)) : ℚ) ^ 2
            = ((floor20Sqrt (maxPixels / (w * h)) * floor20Sqrt (maxPixels / (w * h)) : ℕ) : ℚ) := by
              push_cast; ring
        _ ≤ ((Int.toNat ⌊(400 * (maxPixels / (w * h)) : ℚ)⌋ : ℚ)) := by exact_mod_cast hn2
        _ ≤ 400 * (maxPixels / (w * h)) := hcast
      have hdiv : maxPixels / (w * h) * (w * h) = maxPixels :=
        div_mul_cancel₀ maxPixels (ne_of_gt hwh)
      calc (floor20Sqrt (maxPixels / (w * h)) : ℚ) / 20 * w *
            ((floor20Sqrt (maxPixels / (w * h)) : ℚ) / 20 * h)
          = (floor20Sqrt (maxPixels / (w * h)) : ℚ) ^ 2 / 400 * (w * h) := by ring
      _ ≤ 400 * (maxPixels / (w * h)) / 400 * (w * h) := by
          have hle2 : (floor20Sqrt (maxPixels / (w * h)) : ℚ) ^ 2 / 400 ≤
              400 * (maxPixels / (w * h)) / 400 := by linarith
          exact mul_le_mul_of_nonneg_right hle2 (le_of_lt hwh)
      _ = maxPixels / (w * h) * (w * h) := by ring
      _ = maxPixels := hdiv

/-- Witness for C1 at the spec's concrete scenario: ceiling 1,000,000 and
a 3600×2400 request. -/
theorem getSafeExportScale_spec_witness :
    ((0 : ℚ) < 1000000 ∧ (0 : ℚ) < 3600 ∧ (0 : ℚ) < 2400) ∧
    ((getSafeExportScale 1000000 3600 2400 = 1 ↔ (3600 : ℚ) * 2400 ≤ 1000000) ∧
     (¬ (3600 : ℚ) * 2400 ≤ 1000000 →
       getSafeExportScale 1000000 3600 2400 =
         ((⌊20 * Real.sqrt ((((1000000 : ℚ) / (3600 * 2400) : ℚ)) : ℝ)⌋ : ℚ) / 20) ∧
       (∃ n : ℕ, getSafeExportScale 1000000 3600 2400 = (n : ℚ) * (5 / 100)) ∧
       getSafeExportScale 1000000 3600 2400 < 1 ∧
       getSafeExportScale 1000000 3600 2400 * 3600 *
         (getSafeExportScale 1000000 3600 2400 * 2400) ≤ 1000000)) :=
  ⟨⟨by norm_num, by norm_num, by norm_num⟩,
    getSafeExportScale_spec 1000000 3600 2400 (by norm_num) (by norm_num) (by norm_num)⟩

/-- The retry loop returns the first succeeding candidate's blob and exact
scale, having tried (and failed) every earlier candidate. -/
lemma attemptLoop_first_success {ε β : Type} (encode : ℚ → Except ε β) (fw fh : ℚ) :
    ∀ (cands : List ℚ) (k : ℕ) (b : β), k < cands.length →
      (∀ j, j < k → ∃ e, encode (cands.getD j 0) = Except.error e) →
      encode (cands.getD k 0) = Except.ok b →
      ∀ (stage : Stage) (acc : Option ε),
        (attemptLoop encode fw fh cands stage acc).2 = Except.ok (b, cands.getD k 0) := by
  intro cands
  induction cands with
  | nil => intro k b hk; simp at hk
  | cons c rest ih =>
    intro k b hk hfail hok stage acc
    cases k with
    | zero =>
      have hc : encode c = Except.ok b := hok
      simp [attemptLoop, hc]
    | succ k =>
      obtain ⟨e0, he0⟩ := hfail 0 (Nat.succ_pos k)
      have hc : encode c = Except.error e0 := he0
      have hk' : k < rest.length := by simpa using Nat.lt_of_succ_lt_succ hk
      have hfail' : ∀ j, j < k → ∃ e, encode (rest.getD j 0) = Except.error e :=
        fun j hj => hfail (j + 1) (Nat.succ_lt_succ hj)
      simp only [attemptLoop, hc]
      exact ih k b hk' hfail' hok _ (some e0)

/-- C2: the ladder for ceiling 1,000,000 and a 3600×2400 request is
exactly `[0.30, 0.21, 0.15, 0.25]` (safe scale 0.30, entries ≤ 0.1
filtered out), `attemptExport` runs the retry loop on exactly that
ladder, and the loop returns the first succeeding candidate's exact
scale after trying every earlier candidate. -/
theorem attemptExport_ladder_spec :
    getSafeExportScale 1000000 3600 2400 = 3 / 10 ∧
    exportScales (getSafeExportScale 1000000 3600 2400) =
      [3 / 10, 21 / 100, 3 / 20, 1 / 4] ∧
    (∀ (ε β : Type) (encode : ℚ → Except ε β) (maxPixels fw fh : ℚ) (stage : Stage),
      attemptExport encode maxPixels fw fh stage =
        attemptLoop encode fw fh
          (exportScales (getSafeExportScale maxPixels fw fh)) stage none) ∧
    (∀ (ε β : Type) (encode : ℚ → Except ε β) (fw fh : ℚ) (cands : List ℚ)
       (k : ℕ) (b : β), k < cands.length →
      (∀ j, j < k → ∃ e, encode (cands.getD j 0) = Except.error e) →
      encode (cands.getD k 0) = Except.ok b →
      ∀ (stage : Stage) (acc : Option ε),
        (attemptLoop encode fw fh cands stage acc).2 = Except.ok (b, cands.getD k 0)) := by
  have hscale : getSafeExportScale 1000000 3600 2400 = 3 / 10 := by
    have hfloor : ⌊(400 * ((1000000 : ℚ) / (3600 * 2400)) : ℚ)⌋ = 46 := by
      rw [Int.floor_eq_iff] <;> norm_num
    rw [getSafeExportScale_of_gt _ _ _ (by norm_num)]
    rw [floor20Sqrt, hfloor]
    norm_num [show Int.toNat 46 = 46 from rfl, show Nat.sqrt 46 = 6 from by norm_num]
  refine ⟨hscale, ?_, fun ε β encode maxPixels fw fh stage => rfl,
    fun ε β encode fw fh => attemptLoop_first_success encode fw fh⟩
  rw [hscale]
  norm_num [exportScales, List.filter]

/-- Witness for C2: with an encoder that succeeds only at 0.21, the loop
on the concrete ladder returns the 0.21 candidate after failing at 0.30. -/
theorem attemptExport_ladder_spec_witness :
    ((1 : ℕ) < ([(3 : ℚ) / 10, 21 / 100, 3 / 20, 1 / 4]).length ∧
     (∀ j, j < 1 → ∃ e : Unit,
       (fun s => if s = (21 : ℚ) / 100 then Except.ok () else Except.error ())
         (([(3 : ℚ) / 10, 21 / 100, 3 / 20, 1 / 4]).getD j 0) = Except.error e) ∧
     (fun s => if s = (21 : ℚ) / 100 then Except.ok () else Except.error ())
       (([(3 : ℚ) / 10, 21 / 100, 3 / 20, 1 / 4]).getD 1 0) = Except.ok ()) ∧
    (attemptLoop (fun s => if s = (21 : ℚ) / 100 then Except.ok () else Except.error ())
        100 200 [(3 : ℚ) / 10, 21 / 100, 3 / 20, 1 / 4] ⟨1, 1, 100, 200⟩ none).2 =
      Except.ok ((), ([(3 : ℚ) / 10, 21 / 100, 3 / 20, 1 / 4]).getD 1 0) := by
  have hfail : ∀ j, j < 1 → ∃ e : Unit,
      (fun s => if s = (21 : ℚ) / 100 then Except.ok () else Except.error ())
        (([(3 : ℚ) / 10, 21 / 100, 3 / 20, 1 / 4]).getD j 0) = Except.error e := by
    intro j hj
    interval_cases j
    exact ⟨(), by norm_num⟩
  have hok : (fun s => if s = (21 : ℚ) / 100 then Except.ok () else Except.error ())
      (([(3 : ℚ) / 10, 21 / 100, 3 / 20, 1 / 4]).getD 1 0) = Except.ok () := by norm_num
  exact ⟨⟨by norm_num, hfail, hok⟩,
    attemptExport_ladder_spec.2.2.2 Unit Unit
      (fun s => if s = (21 : ℚ) / 100 then Except.ok () else Except.error ())
      100 200 [(3 : ℚ) / 10, 21 / 100, 3 / 20, 1 / 4] 1 () (by norm_num) hfail hok
      ⟨1, 1, 100, 200⟩ none⟩

/-- The ladder always contains the 0.25 fallback, so it is never empty. -/
lemma exportScales_ne_nil (safeScale : ℚ) : exportScales safeScale ≠ [] := by
  have h25 : (0.25 : ℚ) ∈ exportScales safeScale := by
    refine List.mem_filter.mpr ⟨by simp, ?_⟩
    norm_num
  exact List.ne_nil_of_mem h25

/-- When every candidate fails, the loop's thrown error is the last
candidate's underlying cause. -/
lemma attemptLoop_all_fail {ε β : Type} (encode : ℚ → Except ε β) (fw fh : ℚ) :
    ∀ (cands : List ℚ) (hne : cands ≠ []) (stage : Stage) (acc : Option ε),
      (∀ s ∈ cands, ∃ e, encode s = Except.error e) →
      ∃ e, encode (cands.getLast hne) = Except.error e ∧
        (attemptLoop encode fw fh cands stage acc).2 = Except.error (some e) := by
  intro cands
  induction cands with
  | nil => intro hne; exact absurd rfl hne
  | cons c rest ih =>
    intro hne stage acc hfail
    obtain ⟨e0, he0⟩ := hfail c (List.mem_cons.mpr (Or.inl rfl))
    cases rest with
    | nil =>
      refine ⟨e0, ?_, ?_⟩
      · simpa [List.getLast] using he0
      · simp [attemptLoop, he0]
    | cons d rest2 =>
      obtain ⟨e, hlast, hres⟩ := ih (List.cons_ne_nil d rest2)
        ⟨c, c, (jsRound (fw * c) : ℚ), (jsRound (fh * c) : ℚ)⟩ (some e0)
        (fun s hs => hfail s (List.mem_cons.mpr (Or.inr hs)))
      refine ⟨e, ?_, ?_⟩
      · rwa [List.getLast_cons (List.cons_ne_nil d rest2)]
      · simpa [attemptLoop, he0] using hres

/-- C3: `handleDownload` restores the stage's pre-export scale and size in
all cases (its `finally` block), and when every ladder candidate fails the
surfaced error carries the last candidate's underlying cause. -/
theorem handleDownload_spec {ε β : Type} (encode : ℚ → Except ε β)
    (maxPixels fullWidth fullHeight : ℚ) (stage : Stage) :
    (handleDownload encode maxPixels fullWidth fullHeight stage).1 = stage ∧
    ((∀ s ∈ exportScales (getSafeExportScale maxPixels fullWidth fullHeight),
        ∃ e, encode s = Except.error e) →
      ∃ e, encode ((exportScales (getSafeExportScale maxPixels fullWidth fullHeight)).getLast
          (exportScales_ne_nil _)) = Except.error e ∧
        (handleDownload encode maxPixels fullWidth fullHeight stage).2 =
          Except.error (some e)) := by
  constructor
  · rfl
  · intro hfail
    exact attemptLoop_all_fail encode fullWidth fullHeight
      (exportScales (getSafeExportScale maxPixels fullWidth fullHeight))
      (exportScales_ne_nil _) stage none hfail

/-- Witness for C3: an encoder that always fails with cause 7; the stage is
restored and the error carries 7 from the last candidate. -/
theorem handleDownload_spec_witness :
    (handleDownload (fun _ => Except.error 7 : ℚ → Except ℕ Unit)
        1000000 3600 2400 ⟨1, 1, 600, 400⟩).1 = ⟨1, 1, 600, 400⟩ ∧
    ((∀ s ∈ exportScales (getSafeExportScale 1000000 3600 2400),
        ∃ e, (fun _ => Except.error 7 : ℚ → Except ℕ Unit) s = Except.error e) ∧
      ∃ e, (fun _ => Except.error 7 : ℚ → Except ℕ Unit)
          ((exportScales (getSafeExportScale 1000000 3600 2400)).getLast
            (exportScales_ne_nil _)) = Except.error e ∧
        (handleDownload (fun _ => Except.error 7 : ℚ → Except ℕ Unit)
            1000000 3600 2400 ⟨1, 1, 600, 400⟩).2 = Except.error (some e)) :=
  ⟨(handleDownload_spec (fun _ => Except.error 7 : ℚ → Except ℕ Unit)
      1000000 3600 2400 ⟨1, 1, 600, 400⟩).1,
   fun s _ => ⟨7, rfl⟩,
   (handleDownload_spec (fun _ => Except.error 7 : ℚ → Except ℕ Unit)
      1000000 3600 2400 ⟨1, 1, 600, 400⟩).2 (fun s _ => ⟨7, rfl⟩)⟩

/-- The safe scale is never negative. -/
lemma getSafeExportScale_nonneg (maxPixels w h : ℚ) :
    0 ≤ getSafeExportScale maxPixels w h := by
  by_cases hle : w * h ≤ maxPixels
  · rw [getSafeExportScale_of_le maxPixels w h hle]
    norm_num
  · rw [getSafeExportScale_of_gt maxPixels w h hle]
    positivity

/-- The safe scale never exceeds 1. -/
lemma getSafeExportScale_le_one (maxPixels w h : ℚ) (hmax : 0 < maxPixels) :
    getSafeExportScale maxPixels w h ≤ 1 := by
  by_cases hle : w * h ≤ maxPixels
  · rw [getSafeExportScale_of_le maxPixels w h hle]
  · have hwh : 0 < w * h := lt_trans hmax (lt_of_not_le hle)
    have h19 : floor20Sqrt (maxPixels / (w * h)) ≤ 19 :=
      floor20Sqrt_le_19 maxPixels w h hmax hwh hle
    rw [getSafeExportScale_of_gt maxPixels w h hle]
    have : (floor20Sqrt (maxPixels / (w * h)) : ℚ) ≤ 19 := by exact_mod_cast h19
    linarith

/-- C10: every ladder candidate lies in `(0.1, 1]`; when the safe scale
degenerates to 0 — exactly when `√(ceiling/(w·h)) < 0.05` — the only
surviving candidate is the 0.25 fallback; and for integer frame sizes of
at least 5 pixels each side, every attempted resize
`round(scale·size)` is positive and never enlarges the frame. -/
theorem export_scales_bounded (maxPixels : ℚ) (w h : ℕ)
    (hmax : 0 < maxPixels) (hw : 5 ≤ w) (hh : 5 ≤ h) :
    getSafeExportScale maxPixels ((w : ℚ)) ((h : ℚ)) ≤ 1 ∧
    (∀ s ∈ exportScales (getSafeExportScale maxPixels ((w : ℚ)) ((h : ℚ))),
      1 / 10 < s ∧ s ≤ 1) ∧
    (getSafeExportScale maxPixels ((w : ℚ)) ((h : ℚ)) = 0 →
      exportScales (getSafeExportScale maxPixels ((w : ℚ)) ((h : ℚ))) = [0.25]) ∧
    (¬ (w : ℚ) * h ≤ maxPixels →
      (getSafeExportScale maxPixels ((w : ℚ)) ((h : ℚ)) = 0 ↔
        Real.sqrt (((maxPixels / ((w : ℚ) * h) : ℚ)) : ℝ) < 1 / 20)) ∧
    (∀ s ∈ exportScales (getSafeExportScale maxPixels ((w : ℚ)) ((h : ℚ))),
      0 < jsRound ((w : ℚ) * s) ∧ jsRound ((w : ℚ) * s) ≤ (w : ℤ) ∧
      0 < jsRound ((h : ℚ) * s) ∧ jsRound ((h : ℚ) * s) ≤ (h : ℤ)) := by
  have hle1 := getSafeExportScale_le_one maxPixels w h hmax
  have hge0 := getSafeExportScale_nonneg maxPixels ((w : ℚ)) ((h : ℚ))
  have hbounds : ∀ s ∈ exportScales (getSafeExportScale maxPixels ((w : ℚ)) ((h : ℚ))),
      1 / 10 < s ∧ s ≤ 1 := by
    intro s hs
    obtain ⟨hmem, hp⟩ := List.mem_filter.mp hs
    have hgt : (0.1 : ℚ) < s := of_decide_eq_true hp
    refine ⟨by linarith [show (0.1 : ℚ) = 1 / 10 by norm_num], ?_⟩
    simp only [List.mem_cons, List.not_mem_nil, or_false] at hmem
    rcases hmem with rfl | rfl | rfl | rfl
    · exact hle1
    · nlinarith
    · nlinarith
    · norm_num
  refine ⟨hle1, hbounds, ?_, ?_, ?_⟩
  · intro h0
    rw [h0]
    norm_num [exportScales, List.filter]
  · intro hgt
    have hwh : (0 : ℚ) < (w : ℚ) * h := lt_trans hmax (lt_of_not_le hgt)
    have hr : (0 : ℚ) ≤ maxPixels / ((w : ℚ) * h) := le_of_lt (div_pos hmax hwh)
    rw [getSafeExportScale_of_gt _ _ _ hgt]
    have hzero : (floor20Sqrt (maxPixels / ((w : ℚ) * h)) : ℚ) / 20 = 0 ↔
        floor20Sqrt (maxPixels / ((w : ℚ) * h)) = 0 := by
      constructor
      · intro hq
        have : (floor20Sqrt (maxPixels / ((w : ℚ) * h)) : ℚ) = 0 := by linarith
        exact_mod_cast this
      · intro hn
        rw [hn]
        norm_num
    rw [hzero]
    have hbridge := floor20Sqrt_eq_floor_real_sqrt (maxPixels / ((w : ℚ) * h)) hr
    constructor
    · intro hn
      have : ⌊20 * Real.sqrt ((maxPixels / ((w : ℚ) * h) : ℚ) : ℝ)⌋ = 0 := by
        rw [← hbridge, hn]
        rfl
      have hico := Int.floor_eq_zero_iff.mp this
      have hlt20 : 20 * Real.sqrt ((maxPixels / ((w : ℚ) * h) : ℚ) : ℝ) < 1 := hico.2
      linarith
    · intro hsqrt
      have h0 : ⌊20 * Real.sqrt ((maxPixels / ((w : ℚ) * h) : ℚ) : ℝ)⌋ = 0 := by
        rw [Int.floor_eq_zero_iff]
        constructor
        · positivity
        · show 20 * Real.sqrt ((maxPixels / ((w : ℚ) * h) : ℚ) : ℝ) < 1
          linarith
      have : (floor20Sqrt (maxPixels / ((w : ℚ) * h)) : ℤ) = 0 := by rw [hbridge, h0]
      exact_mod_cast this
  · intro s hs
    obtain ⟨hsgt, hsle⟩ := hbounds s hs
    have hwq : (5 : ℚ) ≤ (w : ℚ) := by exact_mod_cast hw
    have hhq : (5 : ℚ) ≤ (h : ℚ) := by exact_mod_cast hh
    have hround : ∀ d : ℕ, (5 : ℚ) ≤ (d : ℚ) →
        0 < jsRound ((d : ℚ) * s) ∧ jsRound ((d : ℚ) * s) ≤ (d : ℤ) := by
      intro d hd
      constructor
      · rw [jsRound]
        have hds : (1 : ℚ) ≤ (d : ℚ) * s + 1 / 2 := by nlinarith
        exact lt_of_lt_of_le Int.zero_lt_one (Int.le_floor.mpr (by exact_mod_cast hds))
      · rw [jsRound]
        have hlt : (d : ℚ) * s + 1 / 2 < (d : ℤ) + 1 := by
          push_cast
          nlinarith
        have := Int.floor_lt.mpr (by exact_mod_cast hlt :
          (d : ℚ) * s + 1 / 2 < ((d : ℤ) + 1 : ℤ))
        omega
    exact ⟨(hround w hwq).1, (hround w hwq).2, (hround h hhq).1, (hround h hhq).2⟩

/-- Witness for C10: desktop ceiling with a 3600×2400 frame. -/
theorem export_scales_bounded_witness :
    ((0 : ℚ) < 100000000 ∧ (5 : ℕ) ≤ 3600 ∧ (5 : ℕ) ≤ 2400) ∧
    (getSafeExportScale 100000000 ((3600 : ℕ) : ℚ) ((2400 : ℕ) : ℚ) ≤ 1 ∧
     (∀ s ∈ exportScales (getSafeExportScale 100000000 ((3600 : ℕ) : ℚ) ((2400 : ℕ) : ℚ)),
       1 / 10 < s ∧ s ≤ 1) ∧
     (getSafeExportScale 100000000 ((3600 : ℕ) : ℚ) ((2400 : ℕ) : ℚ) = 0 →
       exportScales (getSafeExportScale 100000000 ((3600 : ℕ) : ℚ) ((2400 : ℕ) : ℚ)) = [0.25]) ∧
     (¬ ((3600 : ℕ) : ℚ) * ((2400 : ℕ) : ℚ) ≤ 100000000 →
       (getSafeExportScale 100000000 ((3600 : ℕ) : ℚ) ((2400 : ℕ) : ℚ) = 0 ↔
         Real.sqrt ((((100000000 : ℚ) / (((3600 : ℕ) : ℚ) * ((2400 : ℕ) : ℚ)) : ℚ)) : ℝ) <
           1 / 20)) ∧
     (∀ s ∈ exportScales (getSafeExportScale 100000000 ((3600 : ℕ) : ℚ) ((2400 : ℕ) : ℚ)),
       0 < jsRound (((3600 : ℕ) : ℚ) * s) ∧ jsRound (((3600 : ℕ) : ℚ) * s) ≤ ((3600 : ℕ) : ℤ) ∧
       0 < jsRound (((2400 : ℕ) : ℚ) * s) ∧ jsRound (((2400 : ℕ) : ℚ) * s) ≤ ((2400 : ℕ) : ℤ))) :=
  ⟨⟨by norm_num, by norm_num, by norm_num⟩,
    export_scales_bounded 100000000 3600 2400 (by norm_num) (by norm_num) (by norm_num)⟩

/-- C8: the size estimator reports `null` exactly when no assets are
loaded, the frame height is not positive, or encoding throws; otherwise
it reports the encoded preview's `dataUrlToBytes` byte count multiplied
by `1 / previewToFullScale²`. -/
theorem estimateSize_spec (assetsCount : ℕ) (fullStageHeight liveScale : ℚ)
    (encoded : Option String) (hls : 0 < liveScale) :
    (estimateSize assetsCount fullStageHeight (stageScaleFactor liveScale) encoded = none ↔
      (assetsCount = 0 ∨ fullStageHeight ≤ 0 ∨ encoded = none)) ∧
    (∀ url, encoded = some url → assetsCount ≠ 0 → ¬ fullStageHeight ≤ 0 →
      estimateSize assetsCount fullStageHeight (stageScaleFactor liveScale) encoded =
        some (dataUrlToBytes url * (1 / (liveScale * liveScale)))) := by
  have hsf : stageScaleFactor liveScale = 1 / (liveScale * liveScale) := if_pos hls
  constructor
  · by_cases hcond : assetsCount = 0 ∨ fullStageHeight ≤ 0
    · constructor
      · intro _
        rcases hcond with h | h
        · exact Or.inl h
        · exact Or.inr (Or.inl h)
      · intro _
        simp [estimateSize, hcond]
    · cases encoded with
      | none =>
        constructor
        · intro _
          exact Or.inr (Or.inr rfl)
        · intro _
          simp [estimateSize, hcond]
      | some url =>
        constructor
        · intro hnone
          exfalso
          rw [estimateSize, if_neg hcond] at hnone
          exact Option.some_ne_none _ hnone
        · intro habs
          rcases habs with h | h | h
          · exact absurd (Or.inl h) hcond
          · exact absurd (Or.inr h) hcond
          · exact absurd h (Option.some_ne_none url)
  · intro url hurl h0 hh
    subst hurl
    rw [estimateSize, if_neg (by tauto), hsf]

/-- Witness for C8: one asset, frame height 10, preview-to-full scale 1/2,
and a well-formed JPEG data URL. -/
theorem estimateSize_spec_witness :
    (0 : ℚ) < 1 / 2 ∧
    ((estimateSize 1 10 (stageScaleFactor (1 / 2))
        (some "data:image/jpeg;base64,AAAAAA==") = none ↔
      ((1 : ℕ) = 0 ∨ (10 : ℚ) ≤ 0 ∨
        (some "data:image/jpeg;base64,AAAAAA==" : Option String) = none)) ∧
     (∀ url, (some "data:image/jpeg;base64,AAAAAA==" : Option String) = some url →
       (1 : ℕ) ≠ 0 → ¬ (10 : ℚ) ≤ 0 →
       estimateSize 1 10 (stageScaleFactor (1 / 2))
           (some "data:image/jpeg;base64,AAAAAA==") =
         some (dataUrlToBytes url * (1 / ((1 / 2 : ℚ) * (1 / 2)))))) :=
  ⟨by norm_num,
    estimateSize_spec 1 10 (1 / 2) (some "data:image/jpeg;base64,AAAAAA==") (by norm_num)⟩

end OnePic
